import Mathlib

/-!
# Verification of the `springresearch` data pipeline

A shallow embedding of the parts of the repository relevant to the
specification's claims:

* `src/data/parse_so/dump_parsing.py` — the Stack Overflow dump parser
  (`parse_line`, `initial_parse_dump`, `save_post_using_tag`,
  `second_parse_dump`, `align_tag_file`, the `Tags.xml` loading in
  `parse_so_dump`);
* `src/config/experiments.py` — the experiment-card composer
  (`merge`, `get_all_ablation_combinations`,
  `get_experiment_card_cfg_from_dict`, `load_composed_experiments_from_file`);
* `src/tutorials/html_parsers.py` — the tutorial HTML parsers;
* `src/evaluation/evaluation.py` — `generate_code_predictions`.

Python dicts are embedded as insertion-ordered association lists,
fallible Python code as `Except PyErr`, and the filesystem side effects of
the sharding code as an explicit map from file names to file contents.
-/

set_option maxHeartbeats 1000000

namespace SpringResearch

/-- The Python exception kinds raised by the modelled code. -/
inductive PyErr where
  | keyError
  | valueError
  | assertionError
  | attributeError
  | indexError
  | zeroDivisionError
  deriving Repr, DecidableEq

deriving instance DecidableEq for Except

/-! ## Association lists: the embedding of Python `dict`

Python 3.7+ dicts preserve insertion order; assignment to an existing key
keeps its position, assignment to a fresh key appends.  `alookup` is
`d[k]` (as an `Option`), `aset` is `d[k] = v` on a present key, `ainsert`
is `d[k] = v` in general. -/

/-- First value bound to `k`, i.e. Python `d.get(k)`. -/
def alookup [DecidableEq κ] (d : List (κ × α)) (k : κ) : Option α :=
  (d.find? (fun e => e.1 = k)).map (·.2)

/-- Python `d.get(k, default)`. -/
def alookupD [DecidableEq κ] (d : List (κ × α)) (k : κ) (dflt : α) : α :=
  (alookup d k).getD dflt

/-- Overwrite the value at the first occurrence of key `k` (a Python dict
has at most one occurrence), keeping its position. -/
def aset [DecidableEq κ] : List (κ × α) → κ → α → List (κ × α)
  | [], _, _ => []
  | e :: d, k, v => if e.1 = k then (k, v) :: d else e :: aset d k v

/-- Python `d[k] = v`: overwrite in place when present, append when fresh. -/
def ainsert [DecidableEq κ] (d : List (κ × α)) (k : κ) (v : α) : List (κ × α) :=
  if (alookup d k).isSome then aset d k v else d ++ [(k, v)]

/-- The keys of a dict, in order. -/
def akeys (d : List (κ × α)) : List κ := d.map (·.1)

@[simp] theorem alookup_nil [DecidableEq κ] (k : κ) : alookup ([] : List (κ × α)) k = none := rfl

@[simp] theorem alookup_cons [DecidableEq κ] (e : κ × α) (d : List (κ × α)) (k : κ) :
    alookup (e :: d) k = if e.1 = k then some e.2 else alookup d k := by
  by_cases h : e.1 = k <;> simp [alookup, List.find?, h]

@[simp] theorem akeys_nil : akeys ([] : List (κ × α)) = [] := rfl

@[simp] theorem akeys_cons (e : κ × α) (d : List (κ × α)) :
    akeys (e :: d) = e.1 :: akeys d := rfl

theorem alookup_append [DecidableEq κ] (d₁ d₂ : List (κ × α)) (k : κ) :
    alookup (d₁ ++ d₂) k = ((alookup d₁ k).orElse (fun _ => alookup d₂ k)) := by
  induction d₁ with
  | nil => simp
  | cons e d ih =>
      by_cases h : e.1 = k <;> simp [h, ih]

theorem alookup_aset_self [DecidableEq κ] (d : List (κ × α)) (k : κ) (v : α) :
    (alookup d k).isSome → alookup (aset d k v) k = some v := by
  induction d with
  | nil => simp
  | cons e d ih =>
      by_cases h : e.1 = k
      · intro _
        simp [aset, h]
      · intro hs
        rw [alookup_cons, if_neg h] at hs
        simp only [aset, if_neg h, alookup_cons, if_neg h]
        exact ih hs

theorem alookup_aset_ne [DecidableEq κ] (d : List (κ × α)) (k k' : κ) (v : α) (h : k ≠ k') :
    alookup (aset d k v) k' = alookup d k' := by
  induction d with
  | nil => simp [aset]
  | cons e d ih =>
      by_cases he : e.1 = k
      · simp [aset, he, alookup_cons, h]
      · simp [aset, he, alookup_cons, ih]

theorem alookup_ainsert_self [DecidableEq κ] (d : List (κ × α)) (k : κ) (v : α) :
    alookup (ainsert d k v) k = some v := by
  unfold ainsert
  by_cases h : (alookup d k).isSome
  · simp [h, alookup_aset_self d k v h]
  · simp only [h, if_false, Bool.false_eq_true, alookup_append]
    simp only [Option.isSome] at h
    cases hl : alookup d k with
    | none => simp
    | some w => simp [hl] at h

theorem alookup_ainsert_ne [DecidableEq κ] (d : List (κ × α)) (k k' : κ) (v : α) (h : k ≠ k') :
    alookup (ainsert d k v) k' = alookup d k' := by
  unfold ainsert
  by_cases hs : (alookup d k).isSome
  · simp [hs, alookup_aset_ne d k k' v h]
  · simp only [hs, if_false, Bool.false_eq_true, alookup_append]
    cases hl : alookup d k' <;> simp [hl, h]

theorem akeys_aset [DecidableEq κ] (d : List (κ × α)) (k : κ) (v : α) :
    akeys (aset d k v) = akeys d := by
  induction d with
  | nil => rfl
  | cons e d ih =>
      by_cases h : e.1 = k
      · simp [aset, h]
      · simp [aset, h, ih]

theorem alookup_eq_none_of_not_mem_akeys [DecidableEq κ] (d : List (κ × α)) (k : κ)
    (h : k ∉ akeys d) : alookup d k = none := by
  induction d with
  | nil => rfl
  | cons e d ih =>
      simp only [akeys_cons, List.mem_cons, not_or] at h
      simp [Ne.symm h.1, ih h.2]

theorem mem_akeys_of_alookup_isSome [DecidableEq κ] (d : List (κ × α)) (k : κ)
    (h : (alookup d k).isSome) : k ∈ akeys d := by
  by_contra hk
  rw [alookup_eq_none_of_not_mem_akeys d k hk] at h
  simp at h

/-! ## Python primitives -/

/-- Python's whitespace class `\\s` restricted to ASCII:
space, tab, newline, carriage return, vertical tab, form feed. -/
def isPyWs (c : Char) : Bool :=
  c = ' ' || c = '\t' || c = '\n' || c = '\r' || c = '\x0b' || c = '\x0c'

/-- Python `str.strip()` on the character list of a string. -/
def trimChars (l : List Char) : List Char :=
  ((l.dropWhile isPyWs).reverse.dropWhile isPyWs).reverse

/-- Python `str.strip()`. -/
def pyStrip (s : String) : String := ⟨trimChars s.data⟩

/-- Python `str.lstrip()`. -/
def pyLStrip (s : String) : String := ⟨s.data.dropWhile isPyWs⟩

/-- The value of an all-digit character list, `none` if empty or any
character is not an ASCII digit. -/
def digitsVal (l : List Char) : Option Nat :=
  match l with
  | [] => none
  | _ =>
    l.foldl
      (fun acc? c =>
        acc?.bind (fun acc =>
          if c.isDigit then some (acc * 10 + (c.toNat - 48)) else none))
      (some 0)

/-- Python `str.split(sep)` for a one-character separator: always returns
one more group than there are separators. -/
def splitOnChar (c : Char) : List Char → List (List Char)
  | [] => [[]]
  | x :: rest =>
    if x = c then [] :: splitOnChar c rest
    else
      match splitOnChar c rest with
      | [] => [[x]]
      | g :: gs => (x :: g) :: gs

/-- Python `int(s)` on an (ASCII) string: optional surrounding whitespace,
an optional sign, then at least one digit; `None` models a raised
`ValueError`. -/
def pyInt (s : String) : Option Int :=
  match trimChars s.data with
  | '-' :: rest => (digitsVal rest).map (fun n => -(n : Int))
  | '+' :: rest => (digitsVal rest).map (fun n => (n : Int))
  | t => (digitsVal t).map (fun n => (n : Int))

/-- `d[k]` on a Python dict of strings: `KeyError` when the key is absent. -/
def pyKey (pd : List (String × String)) (k : String) : Except PyErr String :=
  match alookup pd k with
  | some v => .ok v
  | none => .error .keyError

/-- `int(s)` raising `ValueError` on a malformed string. -/
def pyToInt (s : String) : Except PyErr Int :=
  if (pyInt s).isSome = false then .error .valueError
  else .ok ((pyInt s).getD 0)

/-- `int(d.get(k, 0))`: the default `0` never fails, a present string must
parse as an integer. -/
def pyOptInt (o : Option String) : Except PyErr Int :=
  match o with
  | none => .ok 0
  | some s => pyToInt s

/-- Model of the third-party `unidecode` library. On the ASCII strings of
this development it is the identity, which is how we embed it. -/
def unidecode (s : String) : String := s

/-- Python `<` on natural numbers, as a boolean. -/
def natLtB (a b : Nat) : Bool := decide (a < b)

/-- Python `<` on (ASCII) strings: lexicographic comparison of code
points, a strict prefix being smaller. -/
def lexLt : List Char → List Char → Bool
  | [], [] => false
  | [], _ :: _ => true
  | _ :: _, [] => false
  | a :: as, b :: bs =>
    if a.toNat < b.toNat then true
    else if b.toNat < a.toNat then false
    else lexLt as bs

/-- Python `<` on strings. -/
def pyStrLtB (a b : String) : Bool := lexLt a.data b.data

/-- Python `max(xs, key=key)` for a non-empty list `cur :: rest` and a
strict comparison `lt` on keys: scan left to right, replacing the current
maximum only on a strictly greater key, so ties keep the earliest
element. -/
def pyMax (lt : β → β → Bool) (key : α → β) : α → List α → α
  | cur, [] => cur
  | cur, x :: rest => pyMax lt key (if lt (key cur) (key x) then x else cur) rest

/-! ## `src/data/parse_so/dump_parsing.py`: `parse_line` -/

/-- The result dict built by `parse_line`
(`src/data/parse_so/dump_parsing.py:66-133`).  The Python code grows one
dict; absent keys are modelled as `none`.  The `parent_id` and
`accepted_answer` values are themselves `post_dict.get(...)` results, hence
the nested `Option`. -/
structure ParseResult where
  line : Int
  body : Option String := none
  result : String := "PASS"
  pType : Option Int := none
  postId : Option String := none
  date : Option String := none
  score : Option Int := none
  commentCount : Option Int := none
  tags : Option (List String) := none
  title : Option String := none
  answerCount : Option Int := none
  views : Option Int := none
  acceptedAnswer : Option (Option String) := none
  parentId : Option (Option String) := none
  deriving Repr, DecidableEq

/-- `parse_line(line_number, line)`.  The untrusted XML parse
`etree.XML(line).attrib` (whose failures are caught) is embedded as the
`Option` input: `none` is a line that failed to parse as XML, `some pd` the
resulting attribute dict.  Every other failure mode of the body —
`post_dict['K']` on a missing key, an uncaught `int(...)` failure — is a
raised exception, i.e. an `Except.error`. -/
def parseLine (lineNumber : Int) (xmlAttrs : Option (List (String × String))) :
    Except PyErr ParseResult :=
  match xmlAttrs with
  | none => .ok { line := lineNumber, result := "PARSE_FAIL" }
  | some pd =>
    match pyKey pd "PostTypeId" with
    | .error e => .error e
    | .ok ptStr =>
      match pyInt ptStr with
      | none => .ok { line := lineNumber, result := "PARSE_FAIL" }
      | some postType =>
        if postType ∉ ([1, 2, 4, 5] : List Int) then
          .ok { line := lineNumber, result := "NOT_VALID_TYPE" }
        else
          match pyKey pd "Body" with
          | .error e => .error e
          | .ok body =>
            if body = "" then
              .ok { line := lineNumber, result := "NO_BODY" }
            else
              match pyKey pd "Id", pyKey pd "CreationDate" with
              | .error e, _ => .error e
              | .ok _, .error e => .error e
              | .ok postId, .ok date =>
                match (pyKey pd "Score").bind pyToInt,
                    pyOptInt (alookup pd "CommentCount") with
                | .error e, _ => .error e
                | .ok _, .error e => .error e
                | .ok score, .ok commentCount =>
                  let base : ParseResult :=
                    { line := lineNumber, body := some (unidecode body),
                      result := "PASS", pType := some postType,
                      postId := some postId, date := some date,
                      score := some score, commentCount := some commentCount }
                  if postType = 1 then
                    match pyKey pd "Tags" with
                    | .error e => .error e
                    | .ok tagsStr =>
                      let postTags :=
                        ((splitOnChar '>' tagsStr.data).filter
                            (fun t => ¬trimChars t = [])).map
                          (fun t => (⟨trimChars (t.filter (fun c => ¬c = '<'))⟩ : String))
                      match alookup pd "Title" with
                      | none => .ok { base with result := "NO_TITLE" }
                      | some title =>
                        if title = "" then
                          .ok { base with result := "NO_TITLE" }
                        else
                          match pyOptInt (alookup pd "AnswerCount"),
                              pyOptInt (alookup pd "ViewCount") with
                          | .error e, _ => .error e
                          | .ok _, .error e => .error e
                          | .ok answerCount, .ok views =>
                            .ok { base with
                              tags := some postTags, title := some (unidecode title),
                              answerCount := some answerCount, views := some views,
                              acceptedAnswer := some (alookup pd "AcceptedAnswerId") }
                  else
                    .ok { base with parentId := some (alookup pd "ParentId") }

/-- The classification claimed by the spec for `parse_line`, written from the
claim's words (not from the code): XML failure or non-integer `PostTypeId`
give `PARSE_FAIL`, a type outside {1, 2, 4, 5} gives `NOT_VALID_TYPE`, an
empty body gives `NO_BODY`, a question without a title gives `NO_TITLE`,
everything else passes. -/
def specLineResult (xmlAttrs : Option (List (String × String))) : String :=
  match xmlAttrs with
  | none => "PARSE_FAIL"
  | some pd =>
    if (pyInt ((alookup pd "PostTypeId").getD "")).isSome = false then "PARSE_FAIL"
    else
      let t := (pyInt ((alookup pd "PostTypeId").getD "")).getD 0
      if t ∉ ([1, 2, 4, 5] : List Int) then "NOT_VALID_TYPE"
      else if (alookup pd "Body").getD "" = "" then "NO_BODY"
      else if t = 1 ∧ (alookup pd "Title").getD "" = "" then "NO_TITLE"
      else "PASS"

/-- The attributes `parse_line` accesses unconditionally on the path the
input actually takes, each present (and integral where converted with an
uncaught `int`).  This is exactly the condition under which the body raises
no exception. -/
def attrsWellFormed (pd : List (String × String)) : Bool :=
  match alookup pd "PostTypeId" with
  | none => false
  | some pt =>
    if (pyInt pt).isSome = false then true
    else
      let t := (pyInt pt).getD 0
      if t ∉ ([1, 2, 4, 5] : List Int) then true
      else match alookup pd "Body" with
        | none => false
        | some body =>
          if body = "" then true
          else
            (alookup pd "Id").isSome &&
            (alookup pd "CreationDate").isSome &&
            (match alookup pd "Score" with
              | none => false
              | some s => (pyInt s).isSome) &&
            (match alookup pd "CommentCount" with
              | none => true
              | some s => (pyInt s).isSome) &&
            (if t = 1 then
              (alookup pd "Tags").isSome &&
              (match alookup pd "Title" with
                | none => true
                | some title =>
                  if title = "" then true
                  else
                    (match alookup pd "AnswerCount" with
                      | none => true
                      | some s => (pyInt s).isSome) &&
                    (match alookup pd "ViewCount" with
                      | none => true
                      | some s => (pyInt s).isSome))
            else true)

theorem mem_akeys_ainsert [DecidableEq κ] (d : List (κ × α)) (k k' : κ) (v : α) :
    k' ∈ akeys (ainsert d k v) ↔ k' ∈ akeys d ∨ k' = k := by
  unfold ainsert
  by_cases hs : (alookup d k).isSome
  · rw [if_pos hs, akeys_aset]
    constructor
    · exact fun h => Or.inl h
    · rintro (h | rfl)
      · exact h
      · exact mem_akeys_of_alookup_isSome d k' hs
  · rw [if_neg hs]
    simp [akeys]

/-! ## `initial_parse_dump` (first pass) -/

/-- `parsed['k']` on a modelled dict field: `KeyError` when absent. -/
def getF (o : Option α) : Except PyErr α :=
  match o with
  | some v => .ok v
  | none => .error .keyError

/-- `counter[k] += 1` on a `Counter` (missing keys count as `0`). -/
def bump [DecidableEq κ] (c : List (κ × Nat)) (k : κ) : List (κ × Nat) :=
  ainsert c k (alookupD c k 0 + 1)

/-- Error-propagating left fold: the loop bodies of the dump parser. -/
def runFold (f : σ → α → Except PyErr σ) : σ → List α → Except PyErr σ
  | st, [] => .ok st
  | st, x :: rest =>
    match f st x with
    | .error e => .error e
    | .ok st' => runFold f st' rest

/-- Modelled from the spec: `POST_TYPE_TO_STR` lives in
`src/data/parse_so/util.py`, which is not among the provided sources.  Per
the spec's overview ("classifies posts (question/answer)") and the uses in
`parse_so_dump` — which reads back `questions.jsonl` and `answers.jsonl`
and indexes `dump_stats['post_types']['answers']` — type 1 maps to
`questions` and type 2 to `answers`; 4 and 5 (tag-wiki posts) map to two
further distinct names. -/
def postTypeToStr : List (Int × String) :=
  [(1, "questions"), (2, "answers"), (4, "wiki_excerpts"), (5, "wiki")]

/-- One entry of `question_overview_data`
(`src/data/parse_so/dump_parsing.py:200-208`); `tag_to_use` is added by the
second pass. -/
structure OvEntry where
  tags : List String
  score : Int
  views : Int
  answerCount : Int
  acceptedAnswer : Option String
  tagToUse : Option String := none
  deriving Repr, DecidableEq

/-- The mutable state of `initial_parse_dump`: the overview dict, the three
counters, and the per-post-type output files (keyed by post type, one file
per entry of `POST_TYPE_TO_STR`, contents as lists of written records). -/
structure InitialState where
  questionOverview : List (String × OvEntry) := []
  failures : List (String × Nat) := []
  postTypeCounter : List (String × Nat) := []
  tagCounts : List (String × Nat) := []
  files : List (Int × List ParseResult) := postTypeToStr.map (fun e => (e.1, []))
  deriving Repr

/-- The loop body of `initial_parse_dump`
(`src/data/parse_so/dump_parsing.py:192-210`): skip-and-count non-`PASS`
records, write the rest to the file of their post type, and collect
question overview data and tag counts. -/
def initialStep (st : InitialState) (parsed : ParseResult) : Except PyErr InitialState :=
  if parsed.result ≠ "PASS" then
    .ok { st with failures := bump st.failures parsed.result }
  else do
    let t ← getF parsed.pType
    let tName ← getF (alookup postTypeToStr t)
    let fileContents ← getF (alookup st.files t)
    let st :=
      { st with
        postTypeCounter := bump st.postTypeCounter tName,
        files := ainsert st.files t (fileContents ++ [parsed]) }
    if t = 1 then do
      let tags ← getF parsed.tags
      let score ← getF parsed.score
      let views ← getF parsed.views
      let answerCount ← getF parsed.answerCount
      let acceptedAnswer ← getF parsed.acceptedAnswer
      let qid ← getF parsed.postId
      .ok { st with
        questionOverview := ainsert st.questionOverview qid
          { tags := tags, score := score, views := views,
            answerCount := answerCount, acceptedAnswer := acceptedAnswer },
        tagCounts := tags.foldl bump st.tagCounts }
    else
      .ok st

/-- `initial_parse_dump` over the already-parsed records yielded by
`read_dump` (the line counting, logging and stats serialization carry no
data flow and are omitted). -/
def initialParseDump (records : List ParseResult) : Except PyErr InitialState :=
  runFold initialStep {} records

/-! ## `save_post_using_tag` and the second pass -/

/-- `max(parsed['tags'], key=lambda t: tag_counts[t])`, preceded by the
`NO_TAG` default for an empty list
(`src/data/parse_so/dump_parsing.py:155-158`); `tag_counts` here is the
first pass's `Counter`, a total function into `Nat` (missing tags count
as `0`). -/
def selectTag (tagCounts : String → Nat) : List String → String
  | [] => "NO_TAG"
  | t :: ts => pyMax natLtB tagCounts t ts

/-- Pair every tag with `tag_counts[tag]`, in order, raising `KeyError` at
the first tag missing from the dict — exactly when Python's `max` raises
while evaluating its key function. -/
def lookupAll (tagCounts : List (String × String)) : List String → Except PyErr (List (String × String))
  | [] => .ok []
  | u :: us =>
    match alookup tagCounts u with
    | none => .error .keyError
    | some c =>
      match lookupAll tagCounts us with
      | .error e => .error e
      | .ok ps => .ok ((u, c) :: ps)

/-- The same tag selection when `tag_counts` was loaded from `Tags.xml` in
`parse_so_dump`: a plain dict from tag name to the *string* attribute
`Count`, so `tag_counts[t]` can raise `KeyError` and comparison is
Python's lexicographic string comparison. -/
def selectTagXml (tagCounts : List (String × String)) : List String → Except PyErr String
  | [] => .ok "NO_TAG"
  | t :: ts =>
    match lookupAll tagCounts (t :: ts) with
    | .error e => .error e
    | .ok [] => .error .valueError
    | .ok (p :: ps) => .ok (pyMax pyStrLtB (fun q => q.2) p ps).1

/-- The `tag_counts` loading from `Tags.xml` in `parse_so_dump`
(`src/data/parse_so/dump_parsing.py:374-382`): lines whose XML parse fails
are skipped, the rest store the *string* `Count` attribute under
`TagName`. -/
def loadTagCounts (tagLines : List (Option (List (String × String)))) :
    Except PyErr (List (String × String)) :=
  runFold
    (fun acc ln =>
      match ln with
      | none => .ok acc
      | some pd => do
        let cnt ← pyKey pd "Count"
        let name ← pyKey pd "TagName"
        .ok (ainsert acc name cnt))
    [] tagLines

/-- Result of one `save_post_using_tag` call: the returned descriptor dict
and chosen tag, plus the filesystem (file name ↦ written records) and
`openCount`, the number of descriptors held right after the write — the
momentary peak of the call, observed before the `>= max_files_open`
close-and-reset. -/
structure SaveResult where
  fds : List String
  files : List (String × List ParseResult)
  openCount : Nat
  tagToUse : String
  deriving Repr, DecidableEq

/-- `save_post_using_tag(parsed, tag_file_descriptors, tag_counts, out_dir,
max_files_open)` (`src/data/parse_so/dump_parsing.py:154-173`).  Opening a
shard uses mode `'w'`, which *truncates* an existing file — modelled by
resetting the file's contents to `[]` whenever a tag not currently in
`tag_file_descriptors` is opened. -/
def savePostUsingTag (parsed : ParseResult) (tagFileDescriptors : List String)
    (files : List (String × List ParseResult)) (tagCounts : String → Nat)
    (maxFilesOpen : Nat) : SaveResult :=
  let tagToUse := selectTag tagCounts (parsed.tags.getD [])
  let fname := tagToUse ++ ".jsonl"
  let fds1 :=
    if tagFileDescriptors.contains tagToUse then tagFileDescriptors
    else tagFileDescriptors ++ [tagToUse]
  let files1 :=
    if tagFileDescriptors.contains tagToUse then files
    else ainsert files fname []
  let files2 := ainsert files1 fname (alookupD files1 fname [] ++ [parsed])
  let fds2 := if maxFilesOpen ≤ fds1.length then [] else fds1
  { fds := fds2, files := files2, openCount := fds1.length, tagToUse := tagToUse }

/-- `max_files_open = 1000 if not debug else 16`
(`src/data/parse_so/dump_parsing.py:254`). -/
def maxFilesOpen (debug : Bool) : Nat := if debug then 16 else 1000

/-- The state threaded through `second_parse_dump`: descriptor dict, the
shard files on disk, the overview dict, the per-tag counter, the `NO_TAG`
count, and `peakOpen`, the largest number of simultaneously held
descriptors seen at any point so far (a history variable). -/
structure SPState where
  questionOverview : List (String × OvEntry)
  tagFileDescriptors : List String := []
  files : List (String × List ParseResult) := []
  postsPerTag : List (String × Nat) := []
  noTags : Nat := 0
  peakOpen : Nat := 0
  deriving Repr, DecidableEq

/-- The question-loop body of `second_parse_dump`
(`src/data/parse_so/dump_parsing.py:263-290`): skip anything not `PASS` of
type 1 or 2, shard the rest by tag, count it, and record `tag_to_use` in
the overview (a missing overview entry is an uncaught `KeyError`). -/
def spQuestionStep (tagCounts : String → Nat) (maxF : Nat) (st : SPState)
    (parsed : ParseResult) : Except PyErr SPState :=
  if parsed.result ≠ "PASS" then .ok st
  else do
    let t ← getF parsed.pType
    if t ∉ ([1, 2] : List Int) then .ok st
    else do
      let sv := savePostUsingTag parsed st.tagFileDescriptors st.files tagCounts maxF
      let qid ← getF parsed.postId
      match alookup st.questionOverview qid with
      | none => .error .keyError
      | some entry =>
        .ok { st with
          tagFileDescriptors := sv.fds,
          files := sv.files,
          postsPerTag := bump st.postsPerTag sv.tagToUse,
          noTags := st.noTags + (if sv.tagToUse = "NO_TAG" then 1 else 0),
          questionOverview := ainsert st.questionOverview qid
            { entry with tagToUse := some sv.tagToUse },
          peakOpen := max st.peakOpen sv.openCount }

/-- The answer-loop body of `second_parse_dump`
(`src/data/parse_so/dump_parsing.py:295-321`): look the parent up in the
overview inside a `try/except KeyError` (so a missing `parent_id` key, a
`None` parent or an unknown parent are all skipped), copy the parent's
tags onto the answer, and shard it. -/
def spAnswerStep (tagCounts : String → Nat) (maxF : Nat) (st : SPState)
    (parsed : ParseResult) : Except PyErr SPState :=
  match parsed.parentId with
  | none => .ok st
  | some pid =>
    match pid.bind (fun p => alookup st.questionOverview p) with
    | none => .ok st
    | some entry =>
      let parsed' := { parsed with tags := some entry.tags }
      let sv := savePostUsingTag parsed' st.tagFileDescriptors st.files tagCounts maxF
      .ok { st with
        tagFileDescriptors := sv.fds,
        files := sv.files,
        noTags := st.noTags + (if sv.tagToUse = "NO_TAG" then 1 else 0),
        peakOpen := max st.peakOpen sv.openCount }

/-- One event of the second pass: a line of `questions.jsonl` or of
`answers.jsonl`. -/
def spStep (tagCounts : String → Nat) (maxF : Nat) (st : SPState)
    (ev : ParseResult ⊕ ParseResult) : Except PyErr SPState :=
  match ev with
  | .inl q => spQuestionStep tagCounts maxF st q
  | .inr a => spAnswerStep tagCounts maxF st a

/-- The two sequential loops of `second_parse_dump` as one fold: all
question lines, then all answer lines. -/
def spEvents (questions answers : List ParseResult) : List (ParseResult ⊕ ParseResult) :=
  questions.map Sum.inl ++ answers.map Sum.inr

/-- A (partial) run of the second pass from a given state. -/
def secondParseRun (tagCounts : String → Nat) (maxF : Nat) (st : SPState)
    (events : List (ParseResult ⊕ ParseResult)) : Except PyErr SPState :=
  runFold (spStep tagCounts maxF) st events

/-- `second_parse_dump(questions_path, answers_path, ...)`
(`src/data/parse_so/dump_parsing.py:237-332`) over the already-decoded
lines of the two files.  The final `close()` loop does not change any file
contents; the full end state (the source returns `posts_per_tag`) is
returned. -/
def secondParseDump (questions answers : List ParseResult)
    (questionOverview : List (String × OvEntry)) (tagCounts : String → Nat)
    (debug : Bool) : Except PyErr SPState :=
  secondParseRun tagCounts (maxFilesOpen debug)
    { questionOverview := questionOverview } (spEvents questions answers)

/-! ## `align_tag_file` -/

/-- One rewritten line of a tag shard after alignment: the question record
together with its `answers` dict (answer id ↦ answer record). -/
structure AlignedQuestion where
  record : ParseResult
  answers : List (String × ParseResult)
  deriving Repr, DecidableEq

/-- `orphaned_children[k]` as a bare defaultdict access: create an empty
entry when the key is new. -/
def ocTouch [DecidableEq κ] (oc : List (κ × List (String × ParseResult))) (k : κ) :
    List (κ × List (String × ParseResult)) :=
  if (alookup oc k).isSome then oc else oc ++ [(k, [])]

/-- `orphaned_children[parent][id] = line`. -/
def ocInsert [DecidableEq κ] (oc : List (κ × List (String × ParseResult))) (k : κ)
    (aid : String) (line : ParseResult) : List (κ × List (String × ParseResult)) :=
  ainsert oc k (ainsert (alookupD oc k []) aid line)

/-- The read loop of `align_tag_file`
(`src/data/parse_so/dump_parsing.py:338-346`).  A question stores itself in
`question_dict` (its `answers` dict is the `orphaned_children` entry of its
id, *aliased*, so answers arriving later still land in it — here the
alias is resolved by keeping `question_dict` as id ↦ record and reading
the answers off `orphaned_children` at the end); an answer is filed under
its parent id.  `orphaned_children` keys are parent ids, which can be the
Python `None`, hence `Option String`. -/
def alignStep
    (st : List (String × ParseResult) × List (Option String × List (String × ParseResult)))
    (line : ParseResult) :
    Except PyErr (List (String × ParseResult) × List (Option String × List (String × ParseResult))) := do
  let t ← getF line.pType
  if t = 1 then do
    let qid ← getF line.postId
    .ok (ainsert st.1 qid line, ocTouch st.2 (some qid))
  else do
    let pid ← getF line.parentId
    let aid ← getF line.postId
    .ok (st.1, ocInsert st.2 pid aid line)

/-- `align_tag_file(tag_file)` (`src/data/parse_so/dump_parsing.py:335-359`)
as a function from the shard's decoded lines to the rewritten lines and
the orphan count.  The `question_dict[k]['answers'].update(v)` loop is a
no-op on aliased dicts (`v` *is* `question_dict[k]['answers']`), so only
the orphan counting of the `else` branch remains. -/
def alignTagFile (lines : List ParseResult) :
    Except PyErr (List AlignedQuestion × Nat) := do
  let (qd, oc) ← runFold alignStep ([], []) lines
  let orphans :=
    ((oc.filter (fun e =>
        match e.1 with
        | some s => ¬(alookup qd s).isSome
        | none => true)).map (fun e => e.2.length)).sum
  let out := qd.map (fun e =>
    ({ record := e.2, answers := alookupD oc (some e.1) [] } : AlignedQuestion))
  .ok (out, orphans)

/-! ## Counting helpers -/

def sumCounts (c : List (κ × Nat)) : Nat := (c.map (·.2)).sum

theorem sumCounts_aset_bump [DecidableEq κ] (c : List (κ × Nat)) (k : κ) (w : Nat)
    (h : alookup c k = some w) : sumCounts (aset c k (w + 1)) = sumCounts c + 1 := by
  induction c with
  | nil => simp at h
  | cons e d ih =>
      by_cases he : e.1 = k
      · rw [alookup_cons, if_pos he] at h
        injection h with h
        simp [aset, he, sumCounts, ← h]
        omega
      · rw [alookup_cons, if_neg he] at h
        have := ih h
        simp [aset, he, sumCounts] at this ⊢
        omega

theorem sumCounts_bump [DecidableEq κ] (c : List (κ × Nat)) (k : κ) :
    sumCounts (bump c k) = sumCounts c + 1 := by
  unfold bump ainsert alookupD
  cases h : alookup c k with
  | none => simp [h, sumCounts]
  | some w =>
      simp only [h, Option.isSome_some, if_true, Option.getD_some]
      exact sumCounts_aset_bump c k w h

/-- `parsed['result'] == 'PASS'`. -/
def isPass (r : ParseResult) : Bool := decide (r.result = "PASS")

/-- A `PASS` record of post type `t`. -/
def isPassType (t : Int) (r : ParseResult) : Bool :=
  decide (r.result = "PASS" ∧ r.pType = some t)

theorem except_bind_ok (a : Except PyErr α) (f : α → Except PyErr β) (c : β) :
    a >>= f = .ok c ↔ ∃ b, a = .ok b ∧ f b = .ok c := by
  cases a <;> simp [Bind.bind, Except.bind]

theorem getF_ok (o : Option α) (b : α) : getF o = .ok b ↔ o = some b := by
  cases o <;> simp [getF]

theorem initialStep_pass (st0 st1 : InitialState) (r : ParseResult)
    (hres : r.result = "PASS") (h : initialStep st0 r = .ok st1) :
    ∃ t fc, r.pType = some t ∧ alookup st0.files t = some fc ∧
      st1.failures = st0.failures ∧ st1.files = ainsert st0.files t (fc ++ [r]) := by
  simp only [initialStep, hres, ne_eq, not_true_eq_false, if_false] at h
  rw [except_bind_ok] at h
  obtain ⟨t, hpt, h⟩ := h
  rw [getF_ok] at hpt
  rw [except_bind_ok] at h
  obtain ⟨tName, hname, h⟩ := h
  rw [except_bind_ok] at h
  obtain ⟨fc, hfc, h⟩ := h
  rw [getF_ok] at hfc
  refine ⟨t, fc, hpt, hfc, ?_⟩
  by_cases ht : t = 1
  · rw [if_pos ht] at h
    rw [except_bind_ok] at h
    obtain ⟨tags, _, h⟩ := h
    rw [except_bind_ok] at h
    obtain ⟨score, _, h⟩ := h
    rw [except_bind_ok] at h
    obtain ⟨views, _, h⟩ := h
    rw [except_bind_ok] at h
    obtain ⟨answerCount, _, h⟩ := h
    rw [except_bind_ok] at h
    obtain ⟨acceptedAnswer, _, h⟩ := h
    rw [except_bind_ok] at h
    obtain ⟨qid, _, h⟩ := h
    simp only [Except.ok.injEq] at h
    subst h
    exact ⟨rfl, rfl⟩
  · rw [if_neg ht] at h
    simp only [Except.ok.injEq] at h
    subst h
    exact ⟨rfl, rfl⟩

theorem initialStep_fail (st0 st1 : InitialState) (r : ParseResult)
    (hres : ¬r.result = "PASS") (h : initialStep st0 r = .ok st1) :
    st1 = { st0 with failures := bump st0.failures r.result } := by
  simp only [initialStep, ne_eq, hres, not_false_eq_true, if_true, Except.ok.injEq] at h
  exact h.symm

theorem initialRun_characterization (records : List ParseResult) :
    ∀ (st0 st : InitialState),
      runFold initialStep st0 records = .ok st →
      sumCounts st.failures
        = sumCounts st0.failures + (records.filter (fun r => !isPass r)).length ∧
      ∀ t : Int, alookup st.files t
        = (alookup st0.files t).map (fun l0 => l0 ++ records.filter (isPassType t)) := by
  induction records with
  | nil =>
      intro st0 st h
      simp only [runFold, Except.ok.injEq] at h
      subst h
      refine ⟨by simp, ?_⟩
      intro t
      cases alookup st0.files t <;> simp
  | cons r rest ih =>
      intro st0 st h
      cases hstep : initialStep st0 r with
      | error e =>
          rw [runFold, hstep] at h
          exact absurd h (by simp)
      | ok st1 =>
          rw [runFold, hstep] at h
          obtain ⟨ihf, ihfiles⟩ := ih st1 st h
          by_cases hres : r.result = "PASS"
          · obtain ⟨t, fc, hpt, hfc, hfail, hfiles⟩ := initialStep_pass st0 st1 r hres hstep
            constructor
            · rw [ihf, hfail]
              congr 1
              simp [List.filter_cons, isPass, hres]
            · intro t'
              rw [ihfiles t', hfiles]
              by_cases htt : t = t'
              · subst htt
                rw [alookup_ainsert_self, hfc]
                simp only [Option.map_some']
                have hr : isPassType t r = true := by simp [isPassType, hres, hpt]
                simp [List.filter_cons, hr, List.append_assoc]
              · rw [alookup_ainsert_ne _ _ _ _ htt]
                have hr : isPassType t' r = false := by
                  simp [isPassType, hpt, htt]
                cases hl : alookup st0.files t' <;>
                  simp [hl, List.filter_cons, hr]
          · have hst1 := initialStep_fail st0 st1 r hres hstep
            subst hst1
            constructor
            · rw [ihf]
              simp only [bump]
              rw [show (bump st0.failures r.result) = ainsert st0.failures r.result (alookupD st0.failures r.result 0 + 1) from rfl] at *
              have := sumCounts_bump st0.failures r.result
              simp only [bump] at this
              rw [this]
              have hr : (!isPass r) = true := by simp [isPass, hres]
              simp [List.filter_cons, hr]
              omega
            · intro t'
              rw [ihfiles t']
              have hr : isPassType t' r = false := by simp [isPassType, hres]
              cases hl : alookup st0.files t' <;> simp [hl, List.filter_cons, hr]

theorem pyKey_ok (pd : List (String × String)) (k : String) (v : String)
    (h : alookup pd k = some v) : pyKey pd k = .ok v := by
  simp [pyKey, h]


theorem parseLine_wf (n : Int) (pd : List (String × String))
    (hwf : attrsWellFormed pd = true) :
    (parseLine n (some pd)).map ParseResult.result = .ok (specLineResult (some pd)) := by
  cases hpt : alookup pd "PostTypeId" with
  | none => simp [attrsWellFormed, hpt] at hwf
  | some pt =>
  have hptk : pyKey pd "PostTypeId" = .ok pt := pyKey_ok pd _ pt hpt
  cases hpi : pyInt pt with
  | none =>
      simp only [parseLine, hptk, hpi, Except.map]
      simp [specLineResult, hpt, hpi]
  | some t =>
  by_cases ht : t ∈ ([1, 2, 4, 5] : List Int)
  swap
  · simp only [parseLine, hptk, hpi, ht, not_false_eq_true, if_true, Except.map]
    simp [specLineResult, hpt, hpi, ht]
  cases hb : alookup pd "Body" with
  | none => simp [attrsWellFormed, hpt, hpi, ht, hb] at hwf
  | some body =>
  have hbk : pyKey pd "Body" = .ok body := pyKey_ok pd _ body hb
  by_cases hbe : body = ""
  · simp only [parseLine, hptk, hpi, ht, not_true_eq_false, if_false, hbk, hbe, if_true,
      Except.map]
    simp [specLineResult, hpt, hpi, ht, hb, hbe]
  · simp only [attrsWellFormed, hpt, hpi, Option.isSome_some, Bool.true_eq_false,
      if_false, Option.getD_some, ht, not_true_eq_false, hb, hbe,
      Bool.and_eq_true] at hwf
    obtain ⟨⟨⟨⟨hid, hcd⟩, hsc⟩, hcc⟩, ht1b⟩ := hwf
    obtain ⟨idv, hidv⟩ := Option.isSome_iff_exists.mp hid
    obtain ⟨cdv, hcdv⟩ := Option.isSome_iff_exists.mp hcd
    have hidk := pyKey_ok pd "Id" idv hidv
    have hcdk := pyKey_ok pd "CreationDate" cdv hcdv
    cases hscl : alookup pd "Score" with
    | none => rw [hscl] at hsc; simp at hsc
    | some scoreStr =>
    rw [hscl] at hsc
    obtain ⟨sv, hsv⟩ := Option.isSome_iff_exists.mp hsc
    have hsk := pyKey_ok pd "Score" scoreStr hscl
    have hscore : (pyKey pd "Score").bind pyToInt = .ok sv := by
      rw [hsk]
      simp [Except.bind, pyToInt, hsv]
    have hccE : ∃ cv, pyOptInt (alookup pd "CommentCount") = .ok cv := by
      cases hccl : alookup pd "CommentCount" with
      | none => exact ⟨0, rfl⟩
      | some s =>
          rw [hccl] at hcc
          obtain ⟨cv, hcv⟩ := Option.isSome_iff_exists.mp hcc
          exact ⟨cv, by simp [pyOptInt, pyToInt, hcv]⟩
    obtain ⟨cv, hccok⟩ := hccE
    by_cases ht1 : t = 1
    · subst ht1
      rw [if_pos rfl] at ht1b
      simp only [Bool.and_eq_true] at ht1b
      obtain ⟨htg, httl⟩ := ht1b
      obtain ⟨tagsStr, htgv⟩ := Option.isSome_iff_exists.mp htg
      have htgk := pyKey_ok pd "Tags" tagsStr htgv
      cases httll : alookup pd "Title" with
      | none =>
          simp only [parseLine, hptk, hpi, ht, not_true_eq_false, if_false, hbk, hbe,
            hidk, hcdk, hscore, hccok, htgk, httll, if_true, Except.map]
          simp [specLineResult, hpt, hpi, ht, hb, hbe, httll]
      | some ttl =>
          rw [httll] at httl
          by_cases htte : ttl = ""
          · simp only [parseLine, hptk, hpi, ht, not_true_eq_false, if_false, hbk, hbe,
              hidk, hcdk, hscore, hccok, htgk, httll, htte, if_true, Except.map]
            simp [specLineResult, hpt, hpi, ht, hb, hbe, httll, htte]
          · simp only [htte, if_false, Bool.and_eq_true] at httl
            obtain ⟨hac, hvc⟩ := httl
            have hacE : ∃ av, pyOptInt (alookup pd "AnswerCount") = .ok av := by
              cases hacl : alookup pd "AnswerCount" with
              | none => exact ⟨0, rfl⟩
              | some s =>
                  rw [hacl] at hac
                  obtain ⟨av, hav⟩ := Option.isSome_iff_exists.mp hac
                  exact ⟨av, by simp [pyOptInt, pyToInt, hav]⟩
            have hvcE : ∃ vv, pyOptInt (alookup pd "ViewCount") = .ok vv := by
              cases hvcl : alookup pd "ViewCount" with
              | none => exact ⟨0, rfl⟩
              | some s =>
                  rw [hvcl] at hvc
                  obtain ⟨vv, hvv⟩ := Option.isSome_iff_exists.mp hvc
                  exact ⟨vv, by simp [pyOptInt, pyToInt, hvv]⟩
            obtain ⟨av, hacok⟩ := hacE
            obtain ⟨vv, hvcok⟩ := hvcE
            simp only [parseLine, hptk, hpi, ht, not_true_eq_false, if_false, hbk, hbe,
              hidk, hcdk, hscore, hccok, htgk, httll, htte, hacok, hvcok, Except.map]
            simp [specLineResult, hpt, hpi, ht, hb, hbe, httll, htte]
    · simp only [parseLine, hptk, hpi, ht, not_true_eq_false, if_false, ht1, hbk, hbe,
        hidk, hcdk, hscore, hccok, Except.map]
      simp [specLineResult, hpt, hpi, ht, hb, hbe, ht1]

/-! ## Claim C5 -/

theorem alookup_map_const_nil [DecidableEq κ] (xs : List (κ × α)) (t : κ)
    (l0 : List β)
    (h : alookup (xs.map (fun e => (e.1, ([] : List β)))) t = some l0) : l0 = [] := by
  induction xs with
  | nil => simp at h
  | cons e d ih =>
      rw [List.map_cons, alookup_cons] at h
      by_cases he : e.1 = t
      · simp [he] at h
        exact h
      · rw [if_neg he] at h
        exact ih h

/-- Claim C5 is refuted as stated: `parse_line` *can* raise.  On a line whose
XML parses to an attribute dict without a `PostTypeId` attribute (e.g.
`<row Id="1"/>`), `post_dict['PostTypeId']` raises an uncaught `KeyError`
(the surrounding `try` only catches `ValueError`), instead of returning a
`PARSE_FAIL` result dict. -/
theorem c5_counterexample :
    parseLine 0 (some [("Id", "1")]) = .error PyErr.keyError := by
  rfl

/-- Claim C5 (amended): a line that fails to parse as XML yields a
`PARSE_FAIL` result, and for an attribute dict that carries the attributes
`parse_line` reads unconditionally (`attrsWellFormed`), `parse_line`
returns a result dict (raises nothing) whose `result` field is the
spec-claimed classification `specLineResult`: non-integer `PostTypeId` ↦
`PARSE_FAIL`, type outside {1, 2, 4, 5} ↦ `NOT_VALID_TYPE`, empty body ↦
`NO_BODY`, question without title ↦ `NO_TITLE`, otherwise `PASS`.
Moreover `initial_parse_dump` skips every non-`PASS` record, counting it
as a failure instead of writing it: the failure counts sum to the number
of non-`PASS` records and each per-type output file holds exactly the
`PASS` records of its type, in order. -/
theorem c5_parse_line_classification (n : Int) (pd : List (String × String))
    (records : List ParseResult) (hwf : attrsWellFormed pd = true) :
    parseLine n none = .ok { line := n, result := "PARSE_FAIL" } ∧
    (parseLine n (some pd)).map ParseResult.result = .ok (specLineResult (some pd)) ∧
    ∀ st, initialParseDump records = .ok st →
      sumCounts st.failures = (records.filter (fun r => !isPass r)).length ∧
      ∀ t l, alookup st.files t = some l → l = records.filter (isPassType t) := by
  refine ⟨rfl, parseLine_wf n pd hwf, ?_⟩
  intro st h
  obtain ⟨hf, hfl⟩ := initialRun_characterization records _ st h
  constructor
  · rw [hf]
    simp [sumCounts, InitialState.failures]
  · intro t l hl
    have hmap := hfl t
    rw [hl] at hmap
    cases hl0 : alookup (({} : InitialState).files) t with
    | none => rw [hl0] at hmap; simp at hmap
    | some l0 =>
        rw [hl0] at hmap
        simp only [Option.map_some'] at hmap
        have h0 : l0 = [] := alookup_map_const_nil postTypeToStr t l0 hl0
        injection hmap with hmap
        rw [hmap, h0, List.nil_append]

/-- Witness for the amended C5 at a concrete well-formed question row and a
concrete two-record stream. -/
theorem c5_witness :
    parseLine 7 none = .ok { line := 7, result := "PARSE_FAIL" } ∧
    (parseLine 7 (some [("PostTypeId", "1"), ("Body", "b"), ("Id", "5"),
      ("CreationDate", "d"), ("Score", "3"), ("Tags", "<python>"),
      ("Title", "T")])).map ParseResult.result
      = .ok (specLineResult (some [("PostTypeId", "1"), ("Body", "b"), ("Id", "5"),
        ("CreationDate", "d"), ("Score", "3"), ("Tags", "<python>"),
        ("Title", "T")])) ∧
    ∀ st, initialParseDump [{ line := 0, result := "PARSE_FAIL" }] = .ok st →
      sumCounts st.failures
        = ([({ line := 0, result := "PARSE_FAIL" } : ParseResult)].filter
            (fun r => !isPass r)).length ∧
      ∀ t l, alookup st.files t = some l →
        l = [({ line := 0, result := "PARSE_FAIL" } : ParseResult)].filter (isPassType t) :=
  c5_parse_line_classification 7
    [("PostTypeId", "1"), ("Body", "b"), ("Id", "5"), ("CreationDate", "d"),
      ("Score", "3"), ("Tags", "<python>"), ("Title", "T")]
    [{ line := 0, result := "PARSE_FAIL" }] (by decide)

/-! ## Claim C1 -/

theorem pyMax_mem (lt : β → β → Bool) (key : α → β) (cur : α) (l : List α) :
    pyMax lt key cur l ∈ cur :: l := by
  induction l generalizing cur with
  | nil => simp [pyMax]
  | cons x rest ih =>
      rw [pyMax]
      rcases List.mem_cons.mp (ih (if lt (key cur) (key x) then x else cur)) with h | h
      · rw [h]
        by_cases hc : lt (key cur) (key x) <;> simp [hc]
      · exact List.mem_cons_of_mem _ (List.mem_cons_of_mem _ h)

theorem pyMax_not_lt (lt : β → β → Bool)
    (hasymm : ∀ a b, lt a b = true → lt b a = false)
    (htr : ∀ a b c, lt a b = false → lt b c = false → lt a c = false)
    (key : α → β) (cur : α) (l : List α) :
    ∀ x ∈ cur :: l, lt (key (pyMax lt key cur l)) (key x) = false := by
  have hirr : ∀ a, lt a a = false := by
    intro a
    by_cases h : lt a a = true
    · exact hasymm a a h
    · simpa using h
  induction l generalizing cur with
  | nil =>
      intro x hx
      simp only [List.mem_singleton] at hx
      subst hx
      simp [pyMax, hirr]
  | cons y rest ih =>
      intro x hx
      rw [pyMax]
      have hcur : lt (key (if lt (key cur) (key y) then y else cur)) (key cur) = false := by
        by_cases hc : lt (key cur) (key y)
        · rw [if_pos hc]; exact hasymm _ _ hc
        · rw [if_neg hc]; exact hirr _
      have hy : lt (key (if lt (key cur) (key y) then y else cur)) (key y) = false := by
        by_cases hc : lt (key cur) (key y)
        · rw [if_pos hc]; exact hirr _
        · rw [if_neg hc]
          exact Bool.not_eq_true _ ▸ (by simpa using hc)
      have hmc := ih (if lt (key cur) (key y) then y else cur)
        (if lt (key cur) (key y) then y else cur) (List.mem_cons_self _ _)
      rcases List.mem_cons.mp hx with rfl | hx2
      · exact htr _ _ _ hmc hcur
      rcases List.mem_cons.mp hx2 with rfl | hx3
      · exact htr _ _ _ hmc hy
      · exact ih _ x (List.mem_cons_of_mem _ hx3)

theorem natLtB_asymm (a b : Nat) (h : natLtB a b = true) : natLtB b a = false := by
  simp [natLtB] at h ⊢
  omega

theorem natLtB_negtrans (a b c : Nat) (h1 : natLtB a b = false) (h2 : natLtB b c = false) :
    natLtB a c = false := by
  simp [natLtB] at h1 h2 ⊢
  omega

theorem lexLt_asymm : ∀ a b : List Char, lexLt a b = true → lexLt b a = false := by
  intro a
  induction a with
  | nil =>
      intro b h
      cases b with
      | nil => simp [lexLt] at h
      | cons y ys => simp [lexLt]
  | cons x xs ih =>
      intro b h
      cases b with
      | nil => simp [lexLt] at h
      | cons y ys =>
          simp only [lexLt] at h ⊢
          by_cases h1 : x.toNat < y.toNat
          · rw [if_neg (by omega), if_pos h1]
          · by_cases h2 : y.toNat < x.toNat
            · rw [if_neg h1, if_pos h2] at h
              simp at h
            · rw [if_neg h1, if_neg h2] at h
              rw [if_neg h2, if_neg h1]
              exact ih ys h

theorem lexLt_negtrans : ∀ a b c : List Char,
    lexLt a b = false → lexLt b c = false → lexLt a c = false := by
  intro a
  induction a with
  | nil =>
      intro b c h1 h2
      cases b with
      | nil => exact h2
      | cons y ys => simp [lexLt] at h1
  | cons x xs ih =>
      intro b c h1 h2
      cases b with
      | nil =>
          cases c with
          | nil => rfl
          | cons z zs => simp [lexLt] at h2
      | cons y ys =>
          cases c with
          | nil => rfl
          | cons z zs =>
              simp only [lexLt] at h1 h2 ⊢
              split_ifs at h1 h2 ⊢ <;>
                first
                | rfl
                | omega
                | exact ih ys zs h1 h2

theorem pyStrLtB_asymm (a b : String) (h : pyStrLtB a b = true) : pyStrLtB b a = false :=
  lexLt_asymm a.data b.data h

theorem pyStrLtB_negtrans (a b c : String) (h1 : pyStrLtB a b = false)
    (h2 : pyStrLtB b c = false) : pyStrLtB a c = false :=
  lexLt_negtrans a.data b.data c.data h1 h2

theorem lookupAll_ok (xml : List (String × String)) :
    ∀ (l : List String) (pairs : List (String × String)),
      lookupAll xml l = .ok pairs →
      (∀ p ∈ pairs, p.1 ∈ l ∧ alookup xml p.1 = some p.2) ∧
      (∀ u ∈ l, ∀ c, alookup xml u = some c → (u, c) ∈ pairs) := by
  intro l
  induction l with
  | nil =>
      intro pairs h
      simp only [lookupAll, Except.ok.injEq] at h
      subst h
      exact ⟨by simp, by simp⟩
  | cons u us ih =>
      intro pairs h
      rw [lookupAll] at h
      cases hu : alookup xml u with
      | none => rw [hu] at h; simp at h
      | some c =>
          rw [hu] at h
          cases hrest : lookupAll xml us with
          | error e => rw [hrest] at h; simp at h
          | ok ps =>
              rw [hrest] at h
              simp only [Except.ok.injEq] at h
              subst h
              obtain ⟨h1, h2⟩ := ih ps hrest
              constructor
              · intro p hp
                rcases List.mem_cons.mp hp with rfl | hp2
                · exact ⟨List.mem_cons_self _ _, by simpa using hu⟩
                · obtain ⟨hm, hl⟩ := h1 p hp2
                  exact ⟨List.mem_cons_of_mem _ hm, hl⟩
              · intro v hv cv hcv
                rcases List.mem_cons.mp hv with rfl | hv2
                · rw [hu] at hcv
                  injection hcv with hcv
                  subst hcv
                  exact List.mem_cons_self _ _
                · exact List.mem_cons_of_mem _ (h2 v hv2 cv hcv)

/-- Claim C1 is refuted for the `Tags.xml` branch of `parse_so_dump`: the
counts loaded from `Tags.xml` are the raw `Count` attribute *strings*, so
Python's `max` compares them lexicographically.  For a post tagged `pyth`
(count "9") and `java` (count "10"), the highest-frequency tag is `java`
(10 > 9 numerically), but `save_post_using_tag` picks `pyth` because
"9" > "10" as strings, and the record is written to `pyth.jsonl`. -/
theorem c1_counterexample :
    loadTagCounts [some [("TagName", "pyth"), ("Count", "9")],
        some [("TagName", "java"), ("Count", "10")]]
      = .ok [("pyth", "9"), ("java", "10")] ∧
    selectTagXml [("pyth", "9"), ("java", "10")] ["pyth", "java"] = .ok "pyth" ∧
    pyInt "9" = some 9 ∧ pyInt "10" = some 10 ∧ (9 : Int) < 10 ∧ "pyth" ≠ "java" := by
  refine ⟨by decide, by decide, by decide, by decide, by decide, by decide⟩

/-- Claim C1 (amended): `save_post_using_tag` writes the record to the
shard named after the selected tag, appending it as the last line; a record
with an empty or absent `tags` list goes to `NO_TAG`.  When `tag_counts`
comes from the first pass's integer counters the selected tag is one of
the record's tags of maximal count (earliest on ties).  When `tag_counts`
is loaded from `Tags.xml` the selection maximises the count *string* in
lexicographic order (raising `KeyError` on a tag absent from `Tags.xml`),
which need not be the highest frequency. -/
theorem c1_tag_selection (tagCounts : String → Nat) (parsed : ParseResult)
    (fds : List String) (files : List (String × List ParseResult)) (m : Nat)
    (xml : List (String × String)) (tag : String) :
    (parsed.tags.getD [] = [] →
      (savePostUsingTag parsed fds files tagCounts m).tagToUse = "NO_TAG") ∧
    (∀ t0 ts, parsed.tags.getD [] = t0 :: ts →
      (savePostUsingTag parsed fds files tagCounts m).tagToUse ∈ t0 :: ts ∧
      ∀ u ∈ t0 :: ts,
        tagCounts u ≤ tagCounts (savePostUsingTag parsed fds files tagCounts m).tagToUse) ∧
    (alookupD (savePostUsingTag parsed fds files tagCounts m).files
        ((savePostUsingTag parsed fds files tagCounts m).tagToUse ++ ".jsonl")
        []).getLast? = some parsed ∧
    (selectTagXml xml (parsed.tags.getD []) = .ok tag →
      tag = "NO_TAG" ∨
      (tag ∈ parsed.tags.getD [] ∧
        ∀ u ∈ parsed.tags.getD [], ∀ cu ct,
          alookup xml u = some cu → alookup xml tag = some ct →
          lexLt ct.data cu.data = false)) := by
  have htag : (savePostUsingTag parsed fds files tagCounts m).tagToUse
      = selectTag tagCounts (parsed.tags.getD []) := rfl
  refine ⟨?_, ?_, ?_, ?_⟩
  · intro he
    rw [htag, he]
    rfl
  · intro t0 ts hne
    rw [htag, hne]
    have hsel : selectTag tagCounts (t0 :: ts) = pyMax natLtB tagCounts t0 ts := rfl
    rw [hsel]
    refine ⟨pyMax_mem natLtB tagCounts t0 ts, ?_⟩
    intro u hu
    have := pyMax_not_lt natLtB natLtB_asymm natLtB_negtrans tagCounts t0 ts u hu
    simp only [natLtB, decide_eq_false_iff_not, not_lt] at this
    exact this
  · have hfiles : (savePostUsingTag parsed fds files tagCounts m).files
        = ainsert
            (if fds.contains (selectTag tagCounts (parsed.tags.getD []))
              then files
              else ainsert files
                (selectTag tagCounts (parsed.tags.getD []) ++ ".jsonl") [])
            (selectTag tagCounts (parsed.tags.getD []) ++ ".jsonl")
            (alookupD
              (if fds.contains (selectTag tagCounts (parsed.tags.getD []))
                then files
                else ainsert files
                  (selectTag tagCounts (parsed.tags.getD []) ++ ".jsonl") [])
              (selectTag tagCounts (parsed.tags.getD []) ++ ".jsonl") [] ++ [parsed]) := by
      rfl
    rw [hfiles, htag, alookupD, alookup_ainsert_self]
    simp [List.getLast?_concat]
  · intro hx
    cases hl : parsed.tags.getD [] with
    | nil =>
        rw [hl] at hx
        simp only [selectTagXml, Except.ok.injEq] at hx
        exact Or.inl hx.symm
    | cons t0 ts =>
        rw [hl] at hx
        rw [selectTagXml] at hx
        cases hla : lookupAll xml (t0 :: ts) with
        | error e => rw [hla] at hx; simp at hx
        | ok pairs =>
            rw [hla] at hx
            cases pairs with
            | nil => simp at hx
            | cons p ps =>
                simp only [Except.ok.injEq] at hx
                subst hx
                obtain ⟨hmem, hlook⟩ := lookupAll_ok xml (t0 :: ts) (p :: ps) hla
                have hchosen := pyMax_mem pyStrLtB (fun q => q.2) p ps
                obtain ⟨hctag, hclook⟩ := hmem _ hchosen
                refine Or.inr ⟨hctag, ?_⟩
                intro u hu cu ct hcu hct
                have hup : (u, cu) ∈ p :: ps := hlook u hu cu hcu
                have hmax := pyMax_not_lt pyStrLtB pyStrLtB_asymm pyStrLtB_negtrans
                  (fun q => q.2) p ps (u, cu) hup
                have hcteq : ct = (pyMax pyStrLtB (fun q => q.2) p ps).2 := by
                  rw [hclook] at hct
                  injection hct with hct
                  exact hct.symm
                rw [hcteq]
                exact hmax
  
/-- Witness for the amended C1 at a concrete post and concrete counts. -/
theorem c1_tag_selection_witness :
    ((savePostUsingTag { line := 0, tags := some ["pyth", "java"] } [] []
        (fun t => if t = "java" then 10 else 9) 16).tagToUse ∈ ("pyth" :: ["java"]) ∧
      ∀ u ∈ ("pyth" :: ["java"]),
        (if u = "java" then 10 else 9)
          ≤ (if (savePostUsingTag { line := 0, tags := some ["pyth", "java"] } [] []
                (fun t => if t = "java" then 10 else 9) 16).tagToUse = "java"
              then 10 else 9)) ∧
    ("java" = "NO_TAG" ∨
      ("java" ∈ [("pyth" : String), "java"] ∧
        ∀ u ∈ [("pyth" : String), "java"], ∀ cu ct,
          alookup [("pyth", "1"), ("java", "2")] u = some cu →
          alookup [("pyth", "1"), ("java", "2")] "java" = some ct →
          lexLt ct.data cu.data = false)) := by
  have h := c1_tag_selection (fun t => if t = "java" then 10 else 9)
      { line := 0, tags := some ["pyth", "java"] } [] [] 16
      [("pyth", "1"), ("java", "2")] "java"
  exact ⟨h.2.1 "pyth" ["java"] rfl, h.2.2.2 (by decide)⟩

/-! ## Claim C2 -/

/-- Tag name used by the C2 failing input. -/
def c2tag (i : Nat) : String := "t" ++ toString i

/-- A `PASS` question record with a single tag `t{i}`. -/
def c2q (i : Nat) : ParseResult :=
  { line := (i : Int), result := "PASS", pType := some 1,
    postId := some (toString i), tags := some [c2tag i] }

/-- The 17th question reuses tag `t1` after the descriptor cap forced a
close of all shard files. -/
def c2q17 : ParseResult :=
  { line := 17, result := "PASS", pType := some 1, postId := some "17",
    tags := some ["t1"] }

/-- Questions 1–16 carry 16 distinct tags (reaching the debug-mode cap of
16 open descriptors right after question 16 is written), then question 17
carries tag `t1` again. -/
def c2questions : List ParseResult :=
  ((List.range 16).map (fun i => c2q (i + 1))) ++ [c2q17]

def c2overview : List (String × OvEntry) :=
  c2questions.map (fun q =>
    (q.postId.getD "",
      { tags := q.tags.getD [], score := 0, views := 0, answerCount := 0,
        acceptedAnswer := none }))

set_option maxRecDepth 10000 in
/-- Claim C2 describes the intended behaviour ("don't drop records"), but
the code drops records: after the open-descriptor cap forces all shard
files closed, `save_post_using_tag` reopens a shard with mode `'w'`, which
truncates it.  Running `second_parse_dump` in debug mode (cap 16) on
questions 1–16 with 16 distinct tags followed by question 17 tagged `t1`
leaves `t1.jsonl` holding only question 17: question 1 (which claim C2
says appears exactly once in its shard) has been erased. -/
theorem c2_truncation_drops_record :
    (secondParseDump c2questions [] c2overview (fun _ => 0) true).map
        (fun st => alookupD st.files "t1.jsonl" [])
      = .ok [c2q17] ∧
    c2q 1 ∈ c2questions ∧ c2q 1 ∉ [c2q17] := by
  refine ⟨by decide, by decide, by decide⟩

/-! ## Claim C3 -/

theorem savePost_openCount_le (parsed : ParseResult) (fds : List String)
    (files : List (String × List ParseResult)) (tc : String → Nat) (m : Nat)
    (h : fds.length < m) :
    (savePostUsingTag parsed fds files tc m).openCount ≤ m := by
  have hoc : (savePostUsingTag parsed fds files tc m).openCount
      = (if fds.contains (selectTag tc (parsed.tags.getD [])) then fds
          else fds ++ [selectTag tc (parsed.tags.getD [])]).length := rfl
  rw [hoc]
  by_cases hc : fds.contains (selectTag tc (parsed.tags.getD []))
  · rw [if_pos hc]
    omega
  · rw [if_neg hc]
    simp only [List.length_append, List.length_singleton]
    omega

theorem savePost_fds_lt (parsed : ParseResult) (fds : List String)
    (files : List (String × List ParseResult)) (tc : String → Nat) (m : Nat)
    (h : fds.length < m) (hm : 1 ≤ m) :
    (savePostUsingTag parsed fds files tc m).fds.length < m := by
  have hf : (savePostUsingTag parsed fds files tc m).fds
      = if m ≤ (if fds.contains (selectTag tc (parsed.tags.getD [])) then fds
                else fds ++ [selectTag tc (parsed.tags.getD [])]).length
        then []
        else (if fds.contains (selectTag tc (parsed.tags.getD [])) then fds
              else fds ++ [selectTag tc (parsed.tags.getD [])]) := rfl
  rw [hf]
  split_ifs with hc hle hle2
  · simpa using hm
  · exact h
  · simpa using hm
  · simp only [List.length_append, List.length_singleton] at hle2 ⊢
    omega

theorem spStep_inv (tc : String → Nat) (m : Nat) (hm : 1 ≤ m) (st st' : SPState)
    (ev : ParseResult ⊕ ParseResult)
    (hlen : st.tagFileDescriptors.length < m) (hpeak : st.peakOpen ≤ m)
    (h : spStep tc m st ev = .ok st') :
    st'.tagFileDescriptors.length < m ∧ st'.peakOpen ≤ m := by
  cases ev with
  | inl parsed =>
      rw [spStep, spQuestionStep] at h
      by_cases hres : parsed.result ≠ "PASS"
      · rw [if_pos hres] at h
        simp only [Except.ok.injEq] at h
        subst h
        exact ⟨hlen, hpeak⟩
      · rw [if_neg hres] at h
        rw [except_bind_ok] at h
        obtain ⟨t, hpt, h⟩ := h
        by_cases ht : t ∉ ([1, 2] : List Int)
        · rw [if_pos ht] at h
          simp only [Except.ok.injEq] at h
          subst h
          exact ⟨hlen, hpeak⟩
        · rw [if_neg ht] at h
          rw [except_bind_ok] at h
          obtain ⟨qid, hqid, h⟩ := h
          cases hov : alookup st.questionOverview qid with
          | none => rw [hov] at h; simp at h
          | some entry =>
              rw [hov] at h
              simp only [Except.ok.injEq] at h
              subst h
              exact ⟨savePost_fds_lt parsed st.tagFileDescriptors st.files tc m hlen hm,
                max_le hpeak
                  (savePost_openCount_le parsed st.tagFileDescriptors st.files tc m hlen)⟩
  | inr parsed =>
      cases hpid : parsed.parentId with
      | none =>
          simp only [spStep, spAnswerStep, hpid, Except.ok.injEq] at h
          subst h
          exact ⟨hlen, hpeak⟩
      | some pid =>
          cases hov : pid.bind (fun p => alookup st.questionOverview p) with
          | none =>
              simp only [spStep, spAnswerStep, hpid, hov, Except.ok.injEq] at h
              subst h
              exact ⟨hlen, hpeak⟩
          | some entry =>
              simp only [spStep, spAnswerStep, hpid, hov, Except.ok.injEq] at h
              subst h
              exact ⟨savePost_fds_lt _ st.tagFileDescriptors st.files tc m hlen hm,
                max_le hpeak
                  (savePost_openCount_le _ st.tagFileDescriptors st.files tc m hlen)⟩

theorem spRun_inv (tc : String → Nat) (m : Nat) (hm : 1 ≤ m) :
    ∀ (events : List (ParseResult ⊕ ParseResult)) (st0 st : SPState),
      st0.tagFileDescriptors.length < m → st0.peakOpen ≤ m →
      secondParseRun tc m st0 events = .ok st →
      st.tagFileDescriptors.length < m ∧ st.peakOpen ≤ m := by
  intro events
  induction events with
  | nil =>
      intro st0 st h1 h2 h
      simp only [secondParseRun, runFold, Except.ok.injEq] at h
      subst h
      exact ⟨h1, h2⟩
  | cons ev rest ih =>
      intro st0 st h1 h2 h
      rw [secondParseRun, runFold] at h
      cases hstep : spStep tc m st0 ev with
      | error e => rw [hstep] at h; exact absurd h (by simp)
      | ok st1 =>
          rw [hstep] at h
          obtain ⟨h1', h2'⟩ := spStep_inv tc m hm st0 st1 ev h1 h2 hstep
          exact ih st1 st h1' h2' h

/-- Claim C3 (confirmed): along any prefix of any `second_parse_dump` run,
the number of descriptors held in `tag_file_descriptors` stays below
`max_files_open` between iterations, the momentary count inside a
`save_post_using_tag` call (recorded in `peakOpen`) never exceeds
`max_files_open` (1000 normally, 16 in debug mode), and whenever the count
reaches the cap after a write the function returns the dict reset to
empty. -/
theorem c3_fd_budget (tagCounts : String → Nat) (debug : Bool)
    (ov : List (String × OvEntry)) (questions answers : List ParseResult)
    (n : Nat) (st : SPState) :
    (secondParseRun tagCounts (maxFilesOpen debug) { questionOverview := ov }
        ((spEvents questions answers).take n) = .ok st →
      st.peakOpen ≤ maxFilesOpen debug ∧
      st.tagFileDescriptors.length < maxFilesOpen debug) ∧
    ∀ parsed fds files,
      maxFilesOpen debug
          ≤ (savePostUsingTag parsed fds files tagCounts (maxFilesOpen debug)).openCount →
      (savePostUsingTag parsed fds files tagCounts (maxFilesOpen debug)).fds = [] := by
  have hm : 1 ≤ maxFilesOpen debug := by cases debug <;> simp [maxFilesOpen]
  constructor
  · intro h
    have hinv := spRun_inv tagCounts (maxFilesOpen debug) hm
      ((spEvents questions answers).take n) { questionOverview := ov } st
      (by simpa using hm) (by simp) h
    exact ⟨hinv.2, hinv.1⟩
  · intro parsed fds files hge
    have hf : (savePostUsingTag parsed fds files tagCounts (maxFilesOpen debug)).fds
        = if maxFilesOpen debug
              ≤ (savePostUsingTag parsed fds files tagCounts (maxFilesOpen debug)).openCount
          then []
          else (if fds.contains (selectTag tagCounts (parsed.tags.getD [])) then fds
                else fds ++ [selectTag tagCounts (parsed.tags.getD [])]) := rfl
    rw [hf, if_pos hge]

/-- The 16 descriptors held when the C3 witness triggers the reset. -/
def c3fds : List String := (List.range 16).map (fun i => "f" ++ toString i)

/-- Witness for C3: the empty run keeps the budget, and a call that reaches
the debug cap of 16 returns an empty descriptor dict. -/
theorem c3_fd_budget_witness :
    (({ questionOverview := [] } : SPState).peakOpen ≤ maxFilesOpen true ∧
      ({ questionOverview := [] } : SPState).tagFileDescriptors.length
        < maxFilesOpen true) ∧
    (savePostUsingTag { line := 0, tags := some ["f0"] } c3fds [] (fun _ => 0)
        (maxFilesOpen true)).fds = [] := by
  have h := c3_fd_budget (fun _ => 0) true [] [] [] 0 { questionOverview := [] }
  exact ⟨h.1 (by decide), h.2 { line := 0, tags := some ["f0"] } c3fds [] (by decide)⟩

/-! ## Claim C4 -/

/-- `line['type'] == 1`. -/
def isQb (r : ParseResult) : Bool := decide (r.pType = some 1)

/-- An answer record filed under parent key `k` by `align_tag_file`. -/
def ansAt (k : Option String) (a : ParseResult) : Bool :=
  !isQb a && decide (a.parentId = some k)

/-- `(line['id'], line)` for a question. -/
def qPair (q : ParseResult) : String × ParseResult := (q.postId.getD "", q)

/-- `(line['id'], line)` for an answer. -/
def aPair (a : ParseResult) : String × ParseResult := (a.postId.getD "", a)

/-- The ids of the question records of a shard, in order. -/
def qIds (lines : List ParseResult) : List String :=
  (lines.filter isQb).map (fun q => q.postId.getD "")

/-- The ids of the answer records of a shard, in order. -/
def aIds (lines : List ParseResult) : List String :=
  (lines.filter (fun r => !isQb r)).map (fun a => a.postId.getD "")

/-- Every record of the shard carries the keys `align_tag_file` reads:
a type, an id, and (for answers) a parent id key. -/
def alignWF (lines : List ParseResult) : Bool :=
  lines.all (fun r =>
    r.pType.isSome &&
    (if isQb r then r.postId.isSome else r.parentId.isSome && r.postId.isSome))

/-- The claim's description of `align_tag_file`, written from the claim's
words: one output line per question, carrying the question's record and
the dict of all answers whose `parent_id` is the question's id (in input
order, keyed by answer id); the orphan count is the number of answer
records whose parent key matches no question id. -/
def specAlign (lines : List ParseResult) : List AlignedQuestion × Nat :=
  ((lines.filter isQb).map (fun q =>
      { record := q,
        answers := (lines.filter (ansAt (some (q.postId.getD "")))).map aPair }),
    (lines.filter (fun a =>
        !isQb a &&
        match a.parentId.getD none with
        | some p => decide (p ∉ qIds lines)
        | none => true)).length)

theorem alookup_of_mem_nodup [DecidableEq κ] (d : List (κ × α))
    (hnd : (akeys d).Nodup) (e : κ × α) (he : e ∈ d) : alookup d e.1 = some e.2 := by
  induction d with
  | nil => simp at he
  | cons f d ih =>
      rcases List.mem_cons.mp he with rfl | he2
      · simp
      · rw [akeys_cons, List.nodup_cons] at hnd
        have hne : f.1 ≠ e.1 := by
          intro hc
          exact hnd.1 (hc ▸ List.mem_map_of_mem (·.1) he2)
        rw [alookup_cons, if_neg hne]
        exact ih hnd.2 he2

theorem alookup_isSome_of_mem_akeys [DecidableEq κ] (d : List (κ × α)) (k : κ)
    (h : k ∈ akeys d) : (alookup d k).isSome = true := by
  induction d with
  | nil => simp at h
  | cons e d ih =>
      rw [alookup_cons]
      by_cases he : e.1 = k
      · rw [if_pos he]
        rfl
      · rw [if_neg he]
        rw [akeys_cons, List.mem_cons] at h
        rcases h with rfl | h2
        · exact absurd rfl he
        · exact ih h2

theorem ainsert_of_not_mem [DecidableEq κ] (d : List (κ × α)) (k : κ) (v : α)
    (h : k ∉ akeys d) : ainsert d k v = d ++ [(k, v)] := by
  rw [ainsert, alookup_eq_none_of_not_mem_akeys d k h]
  rfl

theorem akeys_ainsert_nodup [DecidableEq κ] (d : List (κ × α)) (k : κ) (v : α)
    (hnd : (akeys d).Nodup) : (akeys (ainsert d k v)).Nodup := by
  rw [ainsert]
  by_cases h : (alookup d k).isSome
  · rw [if_pos h, akeys_aset]
    exact hnd
  · rw [if_neg h]
    have hk : k ∉ akeys d := fun hc => h (alookup_isSome_of_mem_akeys d k hc)
    simp only [akeys, List.map_append, List.map_cons, List.map_nil]
    rw [List.nodup_append]
    exact ⟨hnd, List.nodup_singleton _, by simpa [akeys] using hk⟩

theorem alookupD_ocTouch [DecidableEq κ] (oc : List (κ × List (String × ParseResult)))
    (k k' : κ) : alookupD (ocTouch oc k) k' [] = alookupD oc k' [] := by
  rw [ocTouch]
  by_cases h : (alookup oc k).isSome
  · rw [if_pos h]
  · rw [if_neg h]
    unfold alookupD
    rw [alookup_append]
    by_cases hk : k = k'
    · subst hk
      cases hl : alookup oc k with
      | none => simp
      | some v => simp [hl] at h
    · cases hl : alookup oc k' <;> simp [hl, hk]

theorem akeys_ocTouch_nodup [DecidableEq κ] (oc : List (κ × List (String × ParseResult)))
    (k : κ) (hnd : (akeys oc).Nodup) : (akeys (ocTouch oc k)).Nodup := by
  rw [ocTouch]
  by_cases h : (alookup oc k).isSome
  · rw [if_pos h]
    exact hnd
  · rw [if_neg h]
    have hk : k ∉ akeys oc := fun hc => h (alookup_isSome_of_mem_akeys oc k hc)
    simp only [akeys, List.map_append, List.map_cons, List.map_nil]
    rw [List.nodup_append]
    exact ⟨hnd, List.nodup_singleton _, by simpa [akeys] using hk⟩

theorem mem_akeys_ocTouch_self [DecidableEq κ]
    (oc : List (κ × List (String × ParseResult))) (k : κ) :
    k ∈ akeys (ocTouch oc k) := by
  rw [ocTouch]
  by_cases h : (alookup oc k).isSome
  · rw [if_pos h]
    exact mem_akeys_of_alookup_isSome oc k h
  · rw [if_neg h]
    simp [akeys]

theorem mem_akeys_ocTouch_mono [DecidableEq κ]
    (oc : List (κ × List (String × ParseResult))) (k k' : κ)
    (h : k' ∈ akeys oc) : k' ∈ akeys (ocTouch oc k) := by
  rw [ocTouch]
  by_cases hs : (alookup oc k).isSome
  · rw [if_pos hs]; exact h
  · rw [if_neg hs]
    simp only [akeys, List.map_append]
    exact List.mem_append_left _ h

theorem mem_akeys_ainsert_self [DecidableEq κ] (d : List (κ × α)) (k : κ) (v : α) :
    k ∈ akeys (ainsert d k v) :=
  mem_akeys_of_alookup_isSome _ k (by rw [alookup_ainsert_self]; rfl)

theorem mem_akeys_ainsert_mono [DecidableEq κ] (d : List (κ × α)) (k k' : κ) (v : α)
    (h : k' ∈ akeys d) : k' ∈ akeys (ainsert d k v) :=
  (mem_akeys_ainsert d k k' v).mpr (Or.inl h)

theorem alookup_map_qPair_isSome (l : List ParseResult) (s : String) :
    (alookup (l.map qPair) s).isSome = true ↔ s ∈ l.map (fun q => q.postId.getD "") := by
  induction l with
  | nil => simp
  | cons q l ih =>
      simp only [List.map_cons, alookup_cons, qPair]
      by_cases h : q.postId.getD "" = s
      · simp [h]
      · simp only [if_neg h, List.mem_cons, ih]
        constructor
        · exact fun hh => Or.inr hh
        · rintro (hh | hh)
          · exact absurd hh.symm h
          · exact hh

theorem sum_filter_map_eq (xs : List α) (p : α → Bool) (f : α → Nat) :
    ((xs.filter p).map f).sum = (xs.map (fun x => if p x then f x else 0)).sum := by
  induction xs with
  | nil => rfl
  | cons x rest ih =>
      rw [List.filter_cons]
      by_cases h : p x
      · simp only [h, if_true, List.map_cons, List.sum_cons, ih]
      · simp only [h, Bool.false_eq_true, if_false, List.map_cons, List.sum_cons, ih]
        omega

theorem sum_map_add_distrib (xs : List α) (f g : α → Nat) :
    (xs.map (fun x => f x + g x)).sum = (xs.map f).sum + (xs.map g).sum := by
  induction xs with
  | nil => rfl
  | cons x rest ih =>
      simp only [List.map_cons, List.sum_cons, ih]
      omega

theorem sum_map_zero_of_not_mem [DecidableEq κ] (ks : List κ) (p : κ) (c : Nat)
    (h : p ∉ ks) : (ks.map (fun k => if k = p then c else 0)).sum = 0 := by
  induction ks with
  | nil => rfl
  | cons k rest ih =>
      simp only [List.mem_cons, not_or] at h
      rw [List.map_cons, List.sum_cons, if_neg (fun hc => h.1 hc.symm), ih h.2]

theorem sum_map_indicator [DecidableEq κ] (ks : List κ) (p : κ) (c : Nat)
    (hnd : ks.Nodup) (hm : p ∈ ks) :
    (ks.map (fun k => if k = p then c else 0)).sum = c := by
  induction ks with
  | nil => simp at hm
  | cons k rest ih =>
      rw [List.nodup_cons] at hnd
      rcases List.mem_cons.mp hm with rfl | hm2
      · rw [List.map_cons, List.sum_cons, if_pos rfl,
          sum_map_zero_of_not_mem rest p c hnd.1]
        omega
      · have hk : k ≠ p := fun hc => hnd.1 (hc ▸ hm2)
        rw [List.map_cons, List.sum_cons, if_neg hk, ih hnd.2 hm2]
        omega

theorem alookupD_ainsert_self [DecidableEq κ] (d : List (κ × α)) (k : κ) (v dflt : α) :
    alookupD (ainsert d k v) k dflt = v := by
  rw [alookupD, alookup_ainsert_self]
  rfl

theorem alookupD_ainsert_ne [DecidableEq κ] (d : List (κ × α)) (k k' : κ) (v dflt : α)
    (h : k ≠ k') : alookupD (ainsert d k v) k' dflt = alookupD d k' dflt := by
  rw [alookupD, alookup_ainsert_ne _ _ _ _ h]
  rfl

theorem alignStep_q (qd : List (String × ParseResult))
    (oc : List (Option String × List (String × ParseResult))) (l : ParseResult)
    (qid : String) (hq : l.pType = some 1) (hid : l.postId = some qid) :
    alignStep (qd, oc) l = .ok (ainsert qd qid l, ocTouch oc (some qid)) := by
  simp [alignStep, hq, hid, getF, bind, Except.bind]

theorem alignStep_a (qd : List (String × ParseResult))
    (oc : List (Option String × List (String × ParseResult))) (l : ParseResult)
    (t : Int) (pid : Option String) (aid : String)
    (ht : l.pType = some t) (hne : ¬t = 1) (hpar : l.parentId = some pid)
    (hid : l.postId = some aid) :
    alignStep (qd, oc) l = .ok (qd, ocInsert oc pid aid l) := by
  simp [alignStep, ht, hne, hpar, hid, getF, bind, Except.bind]

theorem runFold_cons_ok (f : σ → α → Except PyErr σ) (st st1 : σ) (x : α)
    (rest : List α) (h : f st x = .ok st1) :
    runFold f st (x :: rest) = runFold f st1 rest := by
  rw [runFold, h]

theorem alignRun_char :
    ∀ (lines : List ParseResult) (qd0 : List (String × ParseResult))
      (oc0 : List (Option String × List (String × ParseResult))),
      alignWF lines = true →
      (akeys qd0 ++ qIds lines).Nodup →
      (aIds lines).Nodup →
      (∀ k i, i ∈ akeys (alookupD oc0 k []) → i ∉ aIds lines) →
      (akeys oc0).Nodup →
      ∃ ocF,
        runFold alignStep (qd0, oc0) lines
          = .ok (qd0 ++ (lines.filter isQb).map qPair, ocF) ∧
        (∀ k, alookupD ocF k []
          = alookupD oc0 k [] ++ (lines.filter (ansAt k)).map aPair) ∧
        (akeys ocF).Nodup ∧
        (∀ k, k ∈ akeys oc0 → k ∈ akeys ocF) ∧
        (∀ a ∈ lines, isQb a = false → a.parentId.getD none ∈ akeys ocF) := by
  intro lines
  induction lines with
  | nil =>
      intro qd0 oc0 _ _ _ _ hnd
      exact ⟨oc0, by simp [runFold], by simp, hnd, fun k h => h, by simp⟩
  | cons l rest ih =>
      intro qd0 oc0 hwf hq ha hinner hnd
      rw [alignWF, List.all_cons, Bool.and_eq_true] at hwf
      obtain ⟨hl, hwfr⟩ := hwf
      rw [Bool.and_eq_true] at hl
      obtain ⟨hlt, hlrest⟩ := hl
      by_cases hq1 : isQb l = true
      · rw [if_pos hq1] at hlrest
        obtain ⟨qid, hqid⟩ := Option.isSome_iff_exists.mp hlrest
        have hpt : l.pType = some 1 := by simpa [isQb] using hq1
        have hqid' : l.postId.getD "" = qid := by rw [hqid]; rfl
        rw [runFold_cons_ok alignStep (qd0, oc0) _ l rest
          (alignStep_q qd0 oc0 l qid hpt hqid)]
        have hqids : qIds (l :: rest) = qid :: qIds rest := by
          simp [qIds, List.filter_cons, hq1, hqid']
        rw [hqids] at hq
        have hfresh : qid ∉ akeys qd0 := by
          rw [List.nodup_append] at hq
          intro hc
          exact hq.2.2 hc (List.mem_cons_self _ _)
        have hins : ainsert qd0 qid l = qd0 ++ [(qid, l)] :=
          ainsert_of_not_mem _ _ _ hfresh
        rw [hins]
        have haIds : aIds (l :: rest) = aIds rest := by
          simp [aIds, List.filter_cons, hq1]
        have hq' : (akeys (qd0 ++ [(qid, l)]) ++ qIds rest).Nodup := by
          have heq : akeys (qd0 ++ [(qid, l)]) ++ qIds rest
              = akeys qd0 ++ (qid :: qIds rest) := by
            simp [akeys]
          rw [heq]
          exact hq
        have ha' : (aIds rest).Nodup := by rwa [haIds] at ha
        have hinner' : ∀ k i,
            i ∈ akeys (alookupD (ocTouch oc0 (some qid)) k []) → i ∉ aIds rest := by
          intro k i hi
          rw [alookupD_ocTouch] at hi
          have := hinner k i hi
          rwa [haIds] at this
        obtain ⟨ocF, hrun, hb, hnodF, hmono, hcov⟩ :=
          ih (qd0 ++ [(qid, l)]) (ocTouch oc0 (some qid)) (by rw [alignWF]; exact hwfr)
            hq' ha' hinner' (akeys_ocTouch_nodup _ _ hnd)
        refine ⟨ocF, ?_, ?_, hnodF, ?_, ?_⟩
        · rw [hrun]
          have : (qd0 ++ [(qid, l)]) ++ (rest.filter isQb).map qPair
              = qd0 ++ ((l :: rest).filter isQb).map qPair := by
            simp [List.filter_cons, hq1, qPair, hqid', List.append_assoc]
          rw [this]
        · intro k
          rw [hb k, alookupD_ocTouch]
          have : ansAt k l = false := by simp [ansAt, hq1]
          simp [List.filter_cons, this]
        · intro k hk
          exact hmono k (mem_akeys_ocTouch_mono _ _ _ hk)
        · intro a hamem haq
          rcases List.mem_cons.mp hamem with rfl | h2
          · rw [haq] at hq1
            simp at hq1
          · exact hcov a h2 haq
      · rw [if_neg hq1] at hlrest
        rw [Bool.and_eq_true] at hlrest
        obtain ⟨hpar, hid⟩ := hlrest
        obtain ⟨pid, hpid⟩ := Option.isSome_iff_exists.mp hpar
        obtain ⟨aid, haid⟩ := Option.isSome_iff_exists.mp hid
        obtain ⟨t, hti⟩ := Option.isSome_iff_exists.mp hlt
        have htne : ¬t = 1 := by
          intro hc
          subst hc
          exact hq1 (by simp [isQb, hti])
        rw [runFold_cons_ok alignStep (qd0, oc0) _ l rest
          (alignStep_a qd0 oc0 l t pid aid hti htne hpid haid)]
        have haidd : l.postId.getD "" = aid := by rw [haid]; rfl
        have hq1' : isQb l = false := by simpa using hq1
        have haids : aIds (l :: rest) = aid :: aIds rest := by
          simp [aIds, List.filter_cons, hq1', haidd]
        have hfresh : aid ∉ akeys (alookupD oc0 pid []) := by
          intro hc
          have := hinner pid aid hc
          rw [haids] at this
          exact this (List.mem_cons_self _ _)
        have hocins : ocInsert oc0 pid aid l
            = ainsert oc0 pid (alookupD oc0 pid [] ++ [(aid, l)]) := by
          rw [ocInsert, ainsert_of_not_mem _ _ _ hfresh]
        have ha' : (aIds rest).Nodup := by
          rw [haids] at ha
          exact (List.nodup_cons.mp ha).2
        have hinner' : ∀ k i,
            i ∈ akeys (alookupD (ocInsert oc0 pid aid l) k []) → i ∉ aIds rest := by
          intro k i hi
          rw [hocins] at hi
          by_cases hk : pid = k
          · subst hk
            rw [alookupD_ainsert_self] at hi
            simp only [akeys, List.map_append, List.mem_append, List.map_cons,
              List.map_nil, List.mem_singleton] at hi
            rcases hi with hi | hi
            · intro hcon
              exact hinner pid i hi (by rw [haids]; exact List.mem_cons_of_mem _ hcon)
            · subst hi
              rw [haids] at ha
              exact (List.nodup_cons.mp ha).1
          · rw [alookupD_ainsert_ne _ _ _ _ _ hk] at hi
            intro hcon
            exact hinner k i hi (by rw [haids]; exact List.mem_cons_of_mem _ hcon)
        have hq' : (akeys qd0 ++ qIds rest).Nodup := by
          rw [show qIds (l :: rest) = qIds rest from by
            simp [qIds, List.filter_cons, hq1']] at hq
          exact hq
        obtain ⟨ocF, hrun, hb, hnodF, hmono, hcov⟩ :=
          ih qd0 (ocInsert oc0 pid aid l) (by rw [alignWF]; exact hwfr) hq' ha' hinner'
            (by rw [hocins]; exact akeys_ainsert_nodup _ _ _ hnd)
        refine ⟨ocF, ?_, ?_, hnodF, ?_, ?_⟩
        · rw [hrun]
          have : (rest.filter isQb).map qPair = ((l :: rest).filter isQb).map qPair := by
            simp [List.filter_cons, hq1']
          rw [this]
        · intro k
          rw [hb k]
          by_cases hk : pid = k
          · subst hk
            rw [hocins, alookupD_ainsert_self]
            have hat : ansAt pid l = true := by simp [ansAt, hq1', hpid]
            simp [List.filter_cons, hat, aPair, haidd, List.append_assoc]
          · rw [hocins, alookupD_ainsert_ne _ _ _ _ _ hk]
            have hat : ansAt k l = false := by
              simp only [ansAt, hq1', Bool.not_false, Bool.true_and, hpid,
                decide_eq_false_iff_not]
              intro hc
              injection hc with hc
              exact hk hc
            simp [List.filter_cons, hat]
        · intro k hk
          exact hmono k (by rw [hocins]; exact mem_akeys_ainsert_mono _ _ _ _ hk)
        · intro a hamem haq
          rcases List.mem_cons.mp hamem with rfl | h2
          · have hpg : a.parentId.getD none = pid := by rw [hpid]; rfl
            rw [hpg]
            exact hmono pid (by rw [hocins]; exact mem_akeys_ainsert_self _ _ _)
          · exact hcov a h2 haq

theorem align_orphan_count (lines : List ParseResult) (P : Option String → Bool) :
    ∀ ks : List (Option String), ks.Nodup →
      (∀ a ∈ lines, isQb a = false → ∃ pid, a.parentId = some pid ∧ pid ∈ ks) →
      (ks.map (fun k => if P k then (lines.filter (ansAt k)).length else 0)).sum
        = (lines.filter (fun a =>
              !isQb a &&
              match a.parentId with
              | some pid => P pid
              | none => false)).length := by
  induction lines with
  | nil =>
      intro ks _ _
      simp only [List.filter_nil, List.length_nil, List.not_mem_nil]
      apply List.sum_eq_zero
      intro x hx
      obtain ⟨k, _, rfl⟩ := List.mem_map.mp hx
      cases P k <;> simp
  | cons a rest ih =>
      intro ks hnd hcover
      have ihr := ih ks hnd (fun b hb hbq => hcover b (List.mem_cons_of_mem _ hb) hbq)
      by_cases haq : isQb a = true
      · have hmc : (ks.map (fun k => if P k then ((a :: rest).filter (ansAt k)).length else 0))
            = ks.map (fun k => if P k then (rest.filter (ansAt k)).length else 0) := by
          apply List.map_congr_left
          intro k _
          have : ansAt k a = false := by simp [ansAt, haq]
          rw [List.filter_cons, this]
          simp
        rw [hmc, ihr, List.filter_cons]
        simp [haq]
      · have haf : isQb a = false := by simpa using haq
        obtain ⟨pid, hpid, hmem⟩ := hcover a (List.mem_cons_self _ _) haf
        have hak : ∀ k, ansAt k a = decide (k = pid) := by
          intro k
          by_cases hk : k = pid
          · subst hk
            simp [ansAt, haf, hpid]
          · have hne : ¬pid = k := fun hc => hk hc.symm
            simp [ansAt, haf, hpid, hne, hk]
        have hterm : (ks.map (fun k => if P k then ((a :: rest).filter (ansAt k)).length else 0))
            = ks.map (fun k =>
                (if P k then (rest.filter (ansAt k)).length else 0)
                + (if k = pid then (if P pid then 1 else 0) else 0)) := by
          apply List.map_congr_left
          intro k _
          rw [List.filter_cons, hak k]
          by_cases hk : k = pid
          · subst hk
            cases hP : P k <;> simp [hP]
          · cases hP : P k <;> simp [hP, hk]
        rw [hterm, sum_map_add_distrib, ihr,
          sum_map_indicator ks pid (if P pid then 1 else 0) hnd hmem, List.filter_cons]
        have hfa : (!isQb a &&
            match a.parentId with
            | some pid => P pid
            | none => false) = P pid := by
          rw [hpid]
          simp [haf]
        rw [hfa]
        cases hP : P pid <;> simp [hP]

/-- Claim C4 (amended): on a shard whose records carry the keys the code
reads and whose question ids and answer ids are each duplicate-free,
`align_tag_file` rewrites the file to exactly one line per question record
(in input order), each carrying the `answers` dict of all answer records
whose parent id is that question's id — whether they appear before or
after the question — and returns the number of answer records whose
parent key matches no question id; orphaned answers are omitted. -/
theorem c4_align_characterization (lines : List ParseResult)
    (hwf : alignWF lines = true) (hq : (qIds lines).Nodup)
    (ha : (aIds lines).Nodup) :
    alignTagFile lines = .ok (specAlign lines) := by
  obtain ⟨ocF, hrun, hb, hnodF, _, hcov⟩ :=
    alignRun_char lines [] [] hwf (by simpa using hq) ha
      (by intro k i hi; simp [alookupD] at hi) (by simp)
  simp only [alignTagFile, hrun, bind, Except.bind, Except.ok.injEq, specAlign,
    Prod.mk.injEq]
  constructor
  · rw [List.nil_append, List.map_map]
    apply List.map_congr_left
    intro q hq'
    simp only [Function.comp, qPair, AlignedQuestion.mk.injEq]
    refine ⟨trivial, ?_⟩
    rw [hb (some (q.postId.getD ""))]
    simp [alookupD]
  · rw [sum_filter_map_eq]
    have hpoint : (ocF.map (fun e =>
          if (match e.1 with
              | some s => decide ¬((alookup ([] ++ (lines.filter isQb).map qPair) s).isSome = true)
              | none => true)
            then e.2.length else 0))
        = (ocF.map (fun e => e.1)).map
            (fun k => if (match k with
                | some s => decide ¬((alookup ([] ++ (lines.filter isQb).map qPair) s).isSome = true)
                | none => true)
              then (lines.filter (ansAt k)).length else 0) := by
      rw [List.map_map]
      apply List.map_congr_left
      intro e he
      have he2 : e.2 = alookupD ocF e.1 [] := by
        rw [alookupD, alookup_of_mem_nodup ocF hnodF e he]
        rfl
      show (if (match e.1 with
          | some s => decide ¬((alookup ([] ++ (lines.filter isQb).map qPair) s).isSome = true)
          | none => true)
        then e.2.length else 0)
        = (if (match e.1 with
            | some s => decide ¬((alookup ([] ++ (lines.filter isQb).map qPair) s).isSome = true)
            | none => true)
          then (lines.filter (ansAt e.1)).length else 0)
      rw [he2, hb e.1]
      simp [alookupD]
    rw [hpoint]
    have hsum := align_orphan_count lines
      (fun k => match k with
        | some s => decide ¬((alookup ([] ++ (lines.filter isQb).map qPair) s).isSome = true)
        | none => true)
      (ocF.map (fun e => e.1)) (show (ocF.map (fun e => e.1)).Nodup from hnodF) ?_
    · simp only [] at hsum
      rw [hsum]
      congr 1
      apply List.filter_congr
      intro a hamem
      by_cases haq : isQb a = true
      · simp [haq]
      · have haf : isQb a = false := by simpa using haq
        have hwfa := List.all_eq_true.mp hwf a hamem
        rw [Bool.and_eq_true] at hwfa
        have hpar : a.parentId.isSome := by
          obtain ⟨_, h2⟩ := hwfa
          rw [haf] at h2
          simp only [Bool.false_eq_true, if_false, Bool.and_eq_true] at h2
          exact h2.1
        obtain ⟨pid, hpid⟩ := Option.isSome_iff_exists.mp hpar
        rw [hpid]
        simp only [haf, Bool.not_false, Bool.true_and, Option.getD_some]
        cases pid with
        | none => rfl
        | some p =>
            simp only [List.nil_append]
            exact decide_eq_decide.mpr (not_congr (alookup_map_qPair_isSome _ p))
    · intro a hamem haf
      have hwfa := List.all_eq_true.mp hwf a hamem
      rw [Bool.and_eq_true] at hwfa
      have hpar : a.parentId.isSome := by
        obtain ⟨_, h2⟩ := hwfa
        rw [haf] at h2
        simp only [Bool.false_eq_true, if_false, Bool.and_eq_true] at h2
        exact h2.1
      obtain ⟨pid, hpid⟩ := Option.isSome_iff_exists.mp hpar
      refine ⟨pid, hpid, ?_⟩
      have := hcov a hamem haf
      rwa [hpid] at this

/-- Two question records sharing id "1" and two answer records sharing
id "9" under a nonexistent parent "0". -/
def c4qA : ParseResult :=
  { line := 1, result := "PASS", pType := some 1, postId := some "1",
    title := some "A" }

def c4qB : ParseResult :=
  { line := 2, result := "PASS", pType := some 1, postId := some "1",
    title := some "B" }

def c4a1 : ParseResult :=
  { line := 3, result := "PASS", pType := some 2, postId := some "9",
    parentId := some (some "0") }

def c4a2 : ParseResult :=
  { line := 4, result := "PASS", pType := some 2, postId := some "9",
    parentId := some (some "0") }

/-- Claim C4 is refuted as stated: on a shard holding two question records
with the same id and two orphaned answer records with the same id,
`align_tag_file` writes one line (not one per question record — the later
record overwrites the earlier in `question_dict`) and reports one orphan
(not one per orphaned answer record — `len(v)` counts distinct answer
ids). -/
theorem c4_counterexample :
    alignTagFile [c4qA, c4qB, c4a1, c4a2]
      = .ok ([{ record := c4qB, answers := [] }], 1) ∧
    ([c4qA, c4qB, c4a1, c4a2].filter isQb).length = 2 ∧
    ([c4qA, c4qB, c4a1, c4a2].filter (fun r => !isQb r)).length = 2 := by
  refine ⟨by decide, by decide, by decide⟩

/-- A concrete shard for the C4 witness: an answer appearing before its
question, one appearing after, and one orphan. -/
def c4wLines : List ParseResult :=
  [{ line := 1, pType := some 2, postId := some "7", parentId := some (some "2") },
   { line := 2, pType := some 1, postId := some "1" },
   { line := 3, pType := some 1, postId := some "2" },
   { line := 4, pType := some 2, postId := some "8", parentId := some (some "1") },
   { line := 5, pType := some 2, postId := some "9", parentId := some (some "zzz") }]

/-- Witness for the amended C4. -/
theorem c4_align_characterization_witness :
    alignTagFile c4wLines = .ok (specAlign c4wLines) :=
  c4_align_characterization c4wLines (by decide) (by decide) (by decide)

/-! ## Claim C6: recursive dict merge (`merge`, src/config/experiments.py 168-181) -/

/-- A YAML/JSON-style value, the payload type of the override dicts the
config composer manipulates.  Dicts are insertion-ordered association
lists, as everywhere in this development. -/
inductive JVal where
  | jnull
  | jbool (b : Bool)
  | jint (n : Int)
  | jstr (s : String)
  | jdict (d : List (String × JVal))
  deriving Repr

mutual

/-- Structural equality on `JVal`, modelling Python `==` on these values. -/
def JVal.beq : JVal → JVal → Bool
  | .jnull, .jnull => true
  | .jbool a, .jbool b => a = b
  | .jint a, .jint b => a = b
  | .jstr a, .jstr b => a = b
  | .jdict a, .jdict b => beqJD a b
  | _, _ => false

/-- Pointwise `JVal.beq` on dict entry lists. -/
def beqJD : List (String × JVal) → List (String × JVal) → Bool
  | [], [] => true
  | (k, v) :: r, (k', v') :: r' => k = k' && JVal.beq v v' && beqJD r r'
  | _, _ => false

end

mutual

theorem JVal.beq_iff : ∀ a b : JVal, JVal.beq a b = true ↔ a = b
  | .jnull, .jnull => by simp [JVal.beq]
  | .jbool a, .jbool b => by simp [JVal.beq]
  | .jint a, .jint b => by simp [JVal.beq]
  | .jstr a, .jstr b => by simp [JVal.beq]
  | .jdict a, .jdict b => by
      simp only [JVal.beq, beqJD_iff a b]
      constructor
      · intro h; rw [h]
      · intro h; cases h; rfl
  | .jnull, .jbool _ => by simp [JVal.beq]
  | .jnull, .jint _ => by simp [JVal.beq]
  | .jnull, .jstr _ => by simp [JVal.beq]
  | .jnull, .jdict _ => by simp [JVal.beq]
  | .jbool _, .jnull => by simp [JVal.beq]
  | .jbool _, .jint _ => by simp [JVal.beq]
  | .jbool _, .jstr _ => by simp [JVal.beq]
  | .jbool _, .jdict _ => by simp [JVal.beq]
  | .jint _, .jnull => by simp [JVal.beq]
  | .jint _, .jbool _ => by simp [JVal.beq]
  | .jint _, .jstr _ => by simp [JVal.beq]
  | .jint _, .jdict _ => by simp [JVal.beq]
  | .jstr _, .jnull => by simp [JVal.beq]
  | .jstr _, .jbool _ => by simp [JVal.beq]
  | .jstr _, .jint _ => by simp [JVal.beq]
  | .jstr _, .jdict _ => by simp [JVal.beq]
  | .jdict _, .jnull => by simp [JVal.beq]
  | .jdict _, .jbool _ => by simp [JVal.beq]
  | .jdict _, .jint _ => by simp [JVal.beq]
  | .jdict _, .jstr _ => by simp [JVal.beq]

theorem beqJD_iff : ∀ a b : List (String × JVal), beqJD a b = true ↔ a = b
  | [], [] => by simp [beqJD]
  | (k, v) :: r, (k', v') :: r' => by
      simp [beqJD, JVal.beq_iff v v', beqJD_iff r r', Prod.ext_iff, and_assoc]
  | [], _ :: _ => by simp [beqJD]
  | _ :: _, [] => by simp [beqJD]

end

instance : DecidableEq JVal := fun a b => decidable_of_iff _ (JVal.beq_iff a b)

mutual

/-- `merge(a, b)` from src/config/experiments.py: iterate the keys of `b`
in order, folding each binding into `a`. -/
def merge (a : List (String × JVal)) : List (String × JVal) → List (String × JVal)
  | [] => a
  | (k, v) :: rest => merge (mergeKey a k v) rest

/-- One iteration of `merge`'s loop for key `k` with `b[k] = v`: when both
sides hold dicts the merge recurses in place, when the values are equal the
key is left alone (`pass  # same leaf value`), otherwise `a[key] = b[key]`
(overwrite in place when the key is present, append when it is fresh). -/
def mergeKey (a : List (String × JVal)) (k : String) (v : JVal) : List (String × JVal) :=
  match alookup a k, v with
  | some (.jdict wa), .jdict vb => aset a k (.jdict (merge wa vb))
  | some w, _ => if w = v then a else aset a k v
  | none, _ => a ++ [(k, v)]

end

/-- Whether a `JVal` is a dict, Python `isinstance(-, dict)`. -/
def JVal.isDict : JVal → Bool
  | .jdict _ => true
  | _ => false

/-- Dereference a key path inside a `JVal`: `getPath v [k1, k2]` is
`v[k1][k2]` when every prefix lands on a dict holding the next key. -/
def JVal.getPath : JVal → List String → Option JVal
  | v, [] => some v
  | .jdict d, k :: p =>
      match alookup d k with
      | some w => JVal.getPath w p
      | none => none
  | _, _ :: _ => none

mutual

/-- Well-formedness of a value as Python would produce it: every dict at
every level has pairwise-distinct keys. -/
def JVal.wf : JVal → Bool
  | .jdict d => decide (akeys d).Nodup && wfJD d
  | _ => true

/-- `JVal.wf` on each value of a dict entry list. -/
def wfJD : List (String × JVal) → Bool
  | [] => true
  | e :: r => JVal.wf e.2 && wfJD r

end

theorem isDict_shape (w : JVal) (h : w.isDict = true) : ∃ d, w = .jdict d := by
  cases w <;> first | exact ⟨_, rfl⟩ | simp [JVal.isDict] at h

theorem wf_dict_iff (d : List (String × JVal)) :
    JVal.wf (.jdict d) = true ↔ (akeys d).Nodup ∧ wfJD d = true := by
  simp [JVal.wf]

theorem wfJD_lookup (d : List (String × JVal)) (k : String) (w : JVal)
    (hw : wfJD d = true) (h : alookup d k = some w) : JVal.wf w = true := by
  induction d with
  | nil => simp at h
  | cons e rest ih =>
      rw [wfJD.eq_2, Bool.and_eq_true] at hw
      rw [alookup_cons] at h
      by_cases hk : e.1 = k
      · rw [if_pos hk] at h
        exact (Option.some.inj h) ▸ hw.1
      · rw [if_neg hk] at h
        exact ih hw.2 h

theorem mergeKey_none (a : List (String × JVal)) (k : String) (v : JVal)
    (h : alookup a k = none) : mergeKey a k v = a ++ [(k, v)] :=
  mergeKey.eq_3 a k v h

theorem mergeKey_dicts (a : List (String × JVal)) (k : String)
    (wa vb : List (String × JVal)) (h : alookup a k = some (.jdict wa)) :
    mergeKey a k (.jdict vb) = aset a k (.jdict (merge wa vb)) :=
  mergeKey.eq_1 a k wa vb h

theorem mergeKey_leaf (a : List (String × JVal)) (k : String) (v w : JVal)
    (ha : alookup a k = some w) (hnd : ¬(w.isDict = true ∧ v.isDict = true)) :
    mergeKey a k v = if w = v then a else aset a k v :=
  mergeKey.eq_2 a k v w ha
    (fun _ _ hw hv => hnd ⟨by rw [hw]; rfl, by rw [hv]; rfl⟩)

theorem alookup_mergeKey_ne (a : List (String × JVal)) (k : String) (v : JVal)
    (k' : String) (h : k' ≠ k) :
    alookup (mergeKey a k v) k' = alookup a k' := by
  cases ha : alookup a k with
  | none =>
      rw [mergeKey_none a k v ha, alookup_append]
      have h2 : alookup [(k, v)] k' = none := by
        rw [alookup_cons, if_neg (fun hc => h hc.symm)]
        rfl
      rw [h2]
      cases alookup a k' <;> rfl
  | some w =>
      by_cases hd : w.isDict = true ∧ v.isDict = true
      · obtain ⟨wa, rfl⟩ := isDict_shape w hd.1
        obtain ⟨vb, rfl⟩ := isDict_shape v hd.2
        rw [mergeKey_dicts a k wa vb ha]
        exact alookup_aset_ne a k k' _ (fun hc => h hc.symm)
      · rw [mergeKey_leaf a k v w ha hd]
        split
        · rfl
        · exact alookup_aset_ne a k k' v (fun hc => h hc.symm)

theorem alookup_mergeKey_self (a : List (String × JVal)) (k : String) (v : JVal)
    (h : ∀ wa vb, ¬(alookup a k = some (.jdict wa) ∧ v = .jdict vb)) :
    alookup (mergeKey a k v) k = some v := by
  cases ha : alookup a k with
  | none =>
      rw [mergeKey_none a k v ha, alookup_append, ha]
      simp [alookup_cons]
  | some w =>
      by_cases hd : w.isDict = true ∧ v.isDict = true
      · obtain ⟨wa, rfl⟩ := isDict_shape w hd.1
        obtain ⟨vb, rfl⟩ := isDict_shape v hd.2
        exact absurd ⟨ha, rfl⟩ (h wa vb)
      · rw [mergeKey_leaf a k v w ha hd]
        by_cases hv : w = v
        · rw [if_pos hv, ha, hv]
        · rw [if_neg hv]
          exact alookup_aset_self a k v (by simp [ha])

theorem mem_akeys_mergeKey (a : List (String × JVal)) (k : String) (v : JVal)
    (k' : String) :
    k' ∈ akeys (mergeKey a k v) ↔ k' ∈ akeys a ∨ k' = k := by
  cases ha : alookup a k with
  | none =>
      rw [mergeKey_none a k v ha]
      simp [akeys]
  | some w =>
      have hmem : k ∈ akeys a := mem_akeys_of_alookup_isSome a k (by simp [ha])
      have hkeys : akeys (mergeKey a k v) = akeys a := by
        by_cases hd : w.isDict = true ∧ v.isDict = true
        · obtain ⟨wa, rfl⟩ := isDict_shape w hd.1
          obtain ⟨vb, rfl⟩ := isDict_shape v hd.2
          rw [mergeKey_dicts a k wa vb ha, akeys_aset]
        · rw [mergeKey_leaf a k v w ha hd]
          split
          · rfl
          · rw [akeys_aset]
      rw [hkeys]
      constructor
      · exact Or.inl
      · rintro (hm | rfl)
        · exact hm
        · exact hmem

theorem alookup_merge_not_mem (b : List (String × JVal)) :
    ∀ (a : List (String × JVal)) (k : String), k ∉ akeys b →
      alookup (merge a b) k = alookup a k := by
  induction b with
  | nil => intro a k _; rw [merge.eq_1]
  | cons e rest ih =>
      obtain ⟨k₁, v₁⟩ := e
      intro a k h
      simp only [akeys_cons, List.mem_cons, not_or] at h
      rw [merge.eq_2, ih _ _ h.2, alookup_mergeKey_ne _ _ _ _ h.1]

theorem mem_akeys_merge (b : List (String × JVal)) :
    ∀ (a : List (String × JVal)) (k : String),
      k ∈ akeys (merge a b) ↔ k ∈ akeys a ∨ k ∈ akeys b := by
  induction b with
  | nil => intro a k; rw [merge.eq_1]; simp
  | cons e rest ih =>
      obtain ⟨k₁, v₁⟩ := e
      intro a k
      rw [merge.eq_2, ih, mem_akeys_mergeKey]
      simp only [akeys_cons, List.mem_cons]
      tauto

theorem alookup_merge_dicts (b : List (String × JVal)) :
    ∀ (a : List (String × JVal)) (k : String) (da db : List (String × JVal)),
      (akeys b).Nodup → alookup a k = some (.jdict da) →
      alookup b k = some (.jdict db) →
      alookup (merge a b) k = some (.jdict (merge da db)) := by
  induction b with
  | nil => intro a k da db _ _ hb; simp at hb
  | cons e rest ih =>
      obtain ⟨k₁, v₁⟩ := e
      intro a k da db hnd ha hb
      rw [merge.eq_2]
      rw [alookup_cons] at hb
      simp only [akeys_cons, List.nodup_cons] at hnd
      by_cases hk : k₁ = k
      · rw [if_pos hk] at hb
        have hv : v₁ = .jdict db := Option.some.inj hb
        subst hv
        subst hk
        have hmk : alookup (mergeKey a k₁ (.jdict db)) k₁ = some (.jdict (merge da db)) := by
          rw [mergeKey_dicts a k₁ da db ha]
          exact alookup_aset_self a k₁ _ (by simp [ha])
        rw [alookup_merge_not_mem rest _ _ hnd.1, hmk]
      · rw [if_neg hk] at hb
        apply ih (mergeKey a k₁ v₁) k da db hnd.2
        · rw [alookup_mergeKey_ne a k₁ v₁ k (fun hc => hk hc.symm)]
          exact ha
        · exact hb

theorem alookup_merge_replace (b : List (String × JVal)) :
    ∀ (a : List (String × JVal)) (k : String) (v : JVal),
      (akeys b).Nodup → alookup b k = some v →
      (∀ da db, ¬(alookup a k = some (.jdict da) ∧ v = .jdict db)) →
      alookup (merge a b) k = some v := by
  induction b with
  | nil => intro a k v _ hb _; simp at hb
  | cons e rest ih =>
      obtain ⟨k₁, v₁⟩ := e
      intro a k v hnd hb h
      rw [merge.eq_2]
      rw [alookup_cons] at hb
      simp only [akeys_cons, List.nodup_cons] at hnd
      by_cases hk : k₁ = k
      · rw [if_pos hk] at hb
        have hv : v₁ = v := Option.some.inj hb
        subst hv
        subst hk
        have hmk : alookup (mergeKey a k₁ v₁) k₁ = some v₁ :=
          alookup_mergeKey_self a k₁ v₁ h
        rw [alookup_merge_not_mem rest _ _ hnd.1, hmk]
      · rw [if_neg hk] at hb
        apply ih (mergeKey a k₁ v₁) k v hnd.2 hb
        intro da db hc
        rw [alookup_mergeKey_ne a k₁ v₁ k (fun hc2 => hk hc2.symm)] at hc
        exact h da db hc

theorem getPath_dict_shape (w : JVal) (p : List String) (da : List (String × JVal))
    (h : JVal.getPath w p = some (.jdict da)) : ∃ wd, w = .jdict wd := by
  cases w <;> first | exact ⟨_, rfl⟩ | (cases p <;> simp [JVal.getPath] at h)

theorem getPath_cons_some (d : List (String × JVal)) (k : String) (w : JVal)
    (p : List String) (h : alookup d k = some w) :
    JVal.getPath (.jdict d) (k :: p) = JVal.getPath w p := by
  simp [JVal.getPath, h]

theorem getPath_cons_inv (d : List (String × JVal)) (k : String) (p : List String)
    (v : JVal) (h : JVal.getPath (.jdict d) (k :: p) = some v) :
    ∃ w, alookup d k = some w ∧ JVal.getPath w p = some v := by
  cases ha : alookup d k with
  | none => simp [JVal.getPath, ha] at h
  | some w => exact ⟨w, rfl, by simpa [JVal.getPath, ha] using h⟩

theorem getPath_merge_dicts (p : List String) :
    ∀ (a b da db : List (String × JVal)),
      JVal.wf (.jdict b) = true →
      JVal.getPath (.jdict a) p = some (.jdict da) →
      JVal.getPath (.jdict b) p = some (.jdict db) →
      JVal.getPath (.jdict (merge a b)) p = some (.jdict (merge da db)) := by
  induction p with
  | nil =>
      intro a b da db _ ha hb
      simp only [JVal.getPath, Option.some.injEq, JVal.jdict.injEq] at ha hb ⊢
      rw [ha, hb]
  | cons k rest ih =>
      intro a b da db hwb ha hb
      obtain ⟨w, haw, hwp⟩ := getPath_cons_inv a k rest _ ha
      obtain ⟨u, hbu, hup⟩ := getPath_cons_inv b k rest _ hb
      obtain ⟨wa, rfl⟩ := getPath_dict_shape w rest da hwp
      obtain ⟨ub, rfl⟩ := getPath_dict_shape u rest db hup
      have hwb' := (wf_dict_iff b).mp hwb
      have hmk := alookup_merge_dicts b a k wa ub hwb'.1 haw hbu
      rw [getPath_cons_some _ k _ rest hmk]
      apply ih wa ub da db
      · exact wfJD_lookup b k (.jdict ub) hwb'.2 hbu
      · exact hwp
      · exact hup

theorem getPath_merge_replace (p : List String) :
    ∀ (a b : List (String × JVal)) (v : JVal),
      JVal.wf (.jdict b) = true →
      JVal.getPath (.jdict b) p = some v →
      (∀ da db, ¬(JVal.getPath (.jdict a) p = some (.jdict da) ∧ v = .jdict db)) →
      JVal.getPath (.jdict (merge a b)) p = some v := by
  induction p with
  | nil =>
      intro a b v _ hb h
      have hv : v = .jdict b := by
        have := hb
        simp only [JVal.getPath, Option.some.injEq] at this
        exact this.symm
      exact absurd ⟨rfl, hv⟩ (h a b)
  | cons k rest ih =>
      intro a b v hwb hb h
      obtain ⟨u, hbu, hup⟩ := getPath_cons_inv b k rest v hb
      have hwb' := (wf_dict_iff b).mp hwb
      cases ha : alookup a k with
      | none =>
          have hmk : alookup (merge a b) k = some u := by
            apply alookup_merge_replace b a k u hwb'.1 hbu
            intro da db hc
            rw [ha] at hc
            exact Option.noConfusion hc.1
          rw [getPath_cons_some _ k u rest hmk]
          exact hup
      | some w =>
          by_cases hd : w.isDict = true ∧ u.isDict = true
          · obtain ⟨wa, rfl⟩ := isDict_shape w hd.1
            obtain ⟨ub, rfl⟩ := isDict_shape u hd.2
            have hmk := alookup_merge_dicts b a k wa ub hwb'.1 ha hbu
            rw [getPath_cons_some _ k _ rest hmk]
            apply ih wa ub v (wfJD_lookup b k (.jdict ub) hwb'.2 hbu) hup
            intro da db hc
            apply h da db
            constructor
            · rw [getPath_cons_some a k _ rest ha]
              exact hc.1
            · exact hc.2
          · have hmk : alookup (merge a b) k = some u := by
              apply alookup_merge_replace b a k u hwb'.1 hbu
              intro da db hc
              rw [ha] at hc
              have hw : w = .jdict da := Option.some.inj hc.1
              apply hd
              constructor
              · rw [hw]; rfl
              · rw [hc.2]; rfl
            rw [getPath_cons_some _ k u rest hmk]
            exact hup

/-- **C6.**  `merge(a, b)` implements recursive dict-merge: on every key
path where both sides hold dicts, the result holds their recursive merge;
on every path where `b` holds a value and the two sides are not both dicts
there, `b`'s value is the result's value (so differing leaves are
overwritten by `b`, and equal leaves trivially keep their shared value);
keys absent from `b` keep exactly `a`'s bindings; the key set of the
result is the union of the two key sets; and `merge a {} = a`.  The
hypothesis — every dict inside `b` has pairwise-distinct keys — is
guaranteed for values parsed from YAML, since Python dicts cannot repeat a
key. -/
theorem c6_merge_semantics (a b : List (String × JVal))
    (hwb : JVal.wf (.jdict b) = true) :
    (∀ p da db, JVal.getPath (.jdict a) p = some (.jdict da) →
        JVal.getPath (.jdict b) p = some (.jdict db) →
        JVal.getPath (.jdict (merge a b)) p = some (.jdict (merge da db)))
    ∧ (∀ p v, JVal.getPath (.jdict b) p = some v →
        (∀ da db, ¬(JVal.getPath (.jdict a) p = some (.jdict da) ∧ v = .jdict db)) →
        JVal.getPath (.jdict (merge a b)) p = some v)
    ∧ (∀ k, k ∉ akeys b → alookup (merge a b) k = alookup a k)
    ∧ (∀ k, k ∈ akeys (merge a b) ↔ k ∈ akeys a ∨ k ∈ akeys b)
    ∧ merge a [] = a := by
  refine ⟨?_, ?_, ?_, ?_, merge.eq_1 a⟩
  · intro p da db ha hb
    exact getPath_merge_dicts p a b da db hwb ha hb
  · intro p v hb h
    exact getPath_merge_replace p a b v hwb hb h
  · intro k hk
    exact alookup_merge_not_mem b a k hk
  · intro k
    exact mem_akeys_merge b a k

/-- A concrete left dict for the C6 witness. -/
def c6a : List (String × JVal) :=
  [("x", .jdict [("y", .jint 0), ("keep", .jbool true)]), ("w", .jint 9)]

/-- A concrete right dict for the C6 witness. -/
def c6b : List (String × JVal) :=
  [("x", .jdict [("y", .jint 1)]), ("z", .jstr "s")]

/-- Witness for C6 at concrete dicts: the nested dicts at `x` merge
recursively, the differing leaf at `x.y` takes `b`'s value, the key `w`
(absent from `b`) keeps `a`'s binding, and the key `z` of `b` lands in the
result's key set. -/
theorem c6_merge_semantics_witness :
    JVal.getPath (.jdict (merge c6a c6b)) ["x"]
        = some (.jdict (merge [("y", .jint 0), ("keep", .jbool true)] [("y", .jint 1)]))
    ∧ JVal.getPath (.jdict (merge c6a c6b)) ["x", "y"] = some (.jint 1)
    ∧ alookup (merge c6a c6b) "w" = alookup c6a "w"
    ∧ ("z" ∈ akeys (merge c6a c6b) ↔ "z" ∈ akeys c6a ∨ "z" ∈ akeys c6b)
    ∧ merge c6a [] = c6a := by
  have h := c6_merge_semantics c6a c6b (by rfl)
  exact ⟨h.1 ["x"] _ _ (by rfl) (by rfl),
    h.2.1 ["x", "y"] (.jint 1) (by rfl)
      (fun da db hc => JVal.noConfusion hc.2),
    h.2.2.1 "w" (by decide),
    h.2.2.2.1 "z",
    h.2.2.2.2⟩


/-! ## Claim C7: `get_all_ablation_combinations` (src/config/experiments.py 143-165)

An ablation list is a list of single-entry dicts `{name: {value_name:
override_dict}}`; the code reads `list(ablation)[0]` for the name (an
`IndexError` on an empty dict) and `list(ablation[name])` for the value
names. -/

/-- The first pass of `get_all_ablation_combinations`: collect
`ablation_names` and `all_keys` for each ablation in order.
`list(ablation)[0]` on an empty dict raises `IndexError`. -/
def ablationKeys :
    List (List (String × List (String × List (String × JVal)))) →
    Except PyErr (List String × List (List String))
  | [] => .ok ([], [])
  | [] :: _ => .error .indexError
  | ((name, nvals) :: tail) :: rest =>
      match ablationKeys rest with
      | .error e => .error e
      | .ok (ns, ks) =>
          .ok (name :: ns, akeys (alookupD ((name, nvals) :: tail) name []) :: ks)

/-- `itertools.product` on lists, in its documented order: the first
factor varies slowest. -/
def itertoolsProduct : List (List α) → List (List α)
  | [] => [[]]
  | xs :: rest => (xs.map (fun x => (itertoolsProduct rest).map (fun c => x :: c))).flatten

/-- Python `'.'.join(parts)`. -/
def joinDot : List String → String
  | [] => ""
  | [x] => x
  | x :: rest => x ++ "." ++ joinDot rest

/-- Python `a.update(b)`: every binding of `b` is written into `a` in
order (overwrite in place when the key is present, append when fresh). -/
def dictUpdate (a b : List (String × JVal)) : List (String × JVal) :=
  b.foldl (fun acc e => ainsert acc e.1 e.2) a

/-- The `combo_dict` loop body of `get_all_ablation_combinations`: for the
`i`-th chosen value, `combo_dict.update(ablation_list[i][ablation_names[i]][ablation])`.
The triples zip `ablation_list`, `ablation_names` and the combination, which
share their length; the `[]` defaults stand for lookups the code performs
with `d[k]` — they cannot miss, because `ablation_names[i]` is the first
key of `ablation_list[i]` and the chosen value is one of its value names. -/
def comboOverrides
    (triples : List ((List (String × List (String × List (String × JVal)))) × String × String)) :
    List (String × JVal) :=
  triples.foldl (fun acc t => dictUpdate acc (alookupD (alookupD t.1 t.2.1 []) t.2.2 [])) []

/-- `get_all_ablation_combinations(ablation_list)`. -/
def getAllAblationCombinations
    (ablationList : List (List (String × List (String × List (String × JVal))))) :
    Except PyErr (List (String × List (String × JVal))) :=
  match ablationKeys ablationList with
  | .error e => .error e
  | .ok (names, allKeys) =>
      .ok ((itertoolsProduct allKeys).map (fun combo =>
        (joinDot combo, comboOverrides (ablationList.zip (names.zip combo)))))

/-- The name an ablation dict defines: its first key (`list(ablation)[0]`). -/
def nameOf (abl : List (String × α)) : String :=
  ((abl.head?).map (·.1)).getD ""

/-- The value names an ablation dict defines: the keys of the dict bound
to its first key. -/
def valueNamesOf (abl : List (String × List (String × β))) : List String :=
  ((abl.head?).map (fun p => akeys p.2)).getD []

/-- The override dicts chosen by a combination, one per ablation in list
order. -/
def chosenDicts
    (ablationList : List (List (String × List (String × List (String × JVal)))))
    (combo : List String) : List (List (String × JVal)) :=
  (ablationList.zip combo).map (fun t => alookupD (alookupD t.1 (nameOf t.1) []) t.2 [])

/-- The value the *last* dict of `ds` holding key `k` binds it to: the
claim's "a later ablation in the list overrides an earlier one". -/
def lastLookup (ds : List (List (String × JVal))) (k : String) : Option JVal :=
  match ds with
  | [] => none
  | d :: rest => (lastLookup rest k).elim (alookup d k) some

theorem ablationKeys_ok (l : List (List (String × List (String × List (String × JVal)))))
    (hne : ∀ abl ∈ l, abl ≠ []) :
    ablationKeys l = .ok (l.map nameOf, l.map valueNamesOf) := by
  induction l with
  | nil => rfl
  | cons abl rest ih =>
      cases abl with
      | nil => exact absurd rfl (hne [] (List.mem_cons_self _ _))
      | cons e tail =>
          obtain ⟨name, nvals⟩ := e
          have hr := ih (fun a ha => hne a (List.mem_cons_of_mem _ ha))
          simp only [ablationKeys, hr]
          simp [nameOf, valueNamesOf, alookupD, alookup_cons]

theorem itertoolsProduct_length (ls : List (List α)) :
    (itertoolsProduct ls).length = (ls.map List.length).prod := by
  induction ls with
  | nil => rfl
  | cons xs rest ih =>
      simp only [itertoolsProduct, List.length_flatten, List.map_map]
      have hmap : List.map (List.length ∘ fun x => List.map (fun c => x :: c)
            (itertoolsProduct rest)) xs
          = List.map (fun _ => (itertoolsProduct rest).length) xs := by
        apply List.map_congr_left
        intro x _
        simp
      have hsum : ∀ (n : Nat) (ys : List α),
          (List.map (fun _ => n) ys).sum = ys.length * n := by
        intro n ys
        induction ys with
        | nil => simp
        | cons y tys ihy =>
            simp only [List.map_cons, List.sum_cons, List.length_cons, ihy]
            ring
      rw [hmap, hsum, ih]
      simp [List.prod_cons]

theorem alookup_val_mem [DecidableEq κ] (d : List (κ × α)) (k : κ) (v : α)
    (h : alookup d k = some v) : ∃ e ∈ d, e.1 = k ∧ e.2 = v := by
  induction d with
  | nil => simp at h
  | cons e rest ih =>
      rw [alookup_cons] at h
      by_cases hk : e.1 = k
      · rw [if_pos hk] at h
        exact ⟨e, List.mem_cons_self _ _, hk, Option.some.inj h⟩
      · rw [if_neg hk] at h
        obtain ⟨e', hm, hp⟩ := ih h
        exact ⟨e', List.mem_cons_of_mem _ hm, hp⟩

theorem alookup_foldl_ainsert [DecidableEq κ] (d : List (κ × α)) :
    ∀ (a : List (κ × α)) (k : κ), (akeys d).Nodup →
      alookup (d.foldl (fun acc e => ainsert acc e.1 e.2) a) k =
        (alookup d k).elim (alookup a k) some := by
  induction d with
  | nil => intro a k _; rfl
  | cons e rest ih =>
      intro a k hnd
      simp only [akeys_cons, List.nodup_cons] at hnd
      simp only [List.foldl_cons]
      rw [ih (ainsert a e.1 e.2) k hnd.2, alookup_cons]
      by_cases hk : e.1 = k
      · have hnone : alookup rest k = none := by
          apply alookup_eq_none_of_not_mem_akeys
          intro hcm
          exact hnd.1 (hk ▸ hcm)
        rw [hnone, if_pos hk]
        simp only [Option.elim_none, Option.elim_some]
        subst hk
        rw [alookup_ainsert_self]
      · rw [if_neg hk]
        cases hr : alookup rest k with
        | some v => simp
        | none =>
            simp only [Option.elim_none]
            exact alookup_ainsert_ne a e.1 k e.2 hk

theorem alookup_foldl_dictUpdate (ds : List (List (String × JVal))) :
    ∀ (a : List (String × JVal)) (k : String), (∀ d ∈ ds, (akeys d).Nodup) →
      alookup (ds.foldl dictUpdate a) k =
        (lastLookup ds k).elim (alookup a k) some := by
  induction ds with
  | nil => intro a k _; rfl
  | cons d rest ih =>
      intro a k h
      simp only [List.foldl_cons]
      rw [ih (dictUpdate a d) k (fun d' hd' => h d' (List.mem_cons_of_mem _ hd'))]
      have hstep : lastLookup (d :: rest) k = (lastLookup rest k).elim (alookup d k) some := by
        simp only [lastLookup]
      rw [hstep]
      cases hl : lastLookup rest k with
      | some v => simp
      | none =>
          simp only [Option.elim_none]
          exact alookup_foldl_ainsert d a k (h d (List.mem_cons_self _ _))

theorem comboOverrides_aux (l : List (List (String × List (String × List (String × JVal))))) :
    ∀ (combo : List String) (acc : List (String × JVal)),
      (l.zip ((l.map nameOf).zip combo)).foldl
          (fun acc t => dictUpdate acc (alookupD (alookupD t.1 t.2.1 []) t.2.2 [])) acc =
        (chosenDicts l combo).foldl dictUpdate acc := by
  induction l with
  | nil => intro combo acc; rfl
  | cons abl rest ih =>
      intro combo acc
      cases combo with
      | nil => rfl
      | cons c cs =>
          simp only [List.map_cons, List.zip_cons_cons, List.foldl_cons, chosenDicts,
            List.map_cons]
          exact ih cs _

theorem comboOverrides_eq (l : List (List (String × List (String × List (String × JVal)))))
    (combo : List String) :
    comboOverrides (l.zip ((l.map nameOf).zip combo)) =
      (chosenDicts l combo).foldl dictUpdate [] :=
  comboOverrides_aux l combo []

theorem chosenDicts_nodup (l : List (List (String × List (String × List (String × JVal)))))
    (combo : List String)
    (hnod : ∀ abl ∈ l, ∀ nv ∈ abl, ∀ vd ∈ nv.2, (akeys vd.2).Nodup) :
    ∀ d ∈ chosenDicts l combo, (akeys d).Nodup := by
  intro d hd
  simp only [chosenDicts, List.mem_map] at hd
  obtain ⟨t, ht, rfl⟩ := hd
  obtain ⟨abl, c⟩ := t
  have haMem : abl ∈ l := (List.of_mem_zip ht).1
  cases h1 : alookup abl (nameOf abl) with
  | none => simp [alookupD, h1]
  | some nvd =>
      cases h2 : alookup nvd c with
      | none => simp [alookupD, h1, h2]
      | some ov =>
          simp only [alookupD, h1, h2, Option.getD_some]
          obtain ⟨e1, hm1, _, hv1⟩ := alookup_val_mem abl (nameOf abl) nvd h1
          obtain ⟨e2, hm2, _, hv2⟩ := alookup_val_mem nvd c ov h2
          subst hv1
          subst hv2
          exact hnod abl haMem e1 hm1 e2 hm2

/-- **C7.**  Under the two preconditions a Python run satisfies by
construction — every ablation dict in the list is non-empty (otherwise the
code raises `IndexError`, see the counterexample) and no override dict
repeats a key (automatic for Python dicts) — `get_all_ablation_combinations`
returns exactly one entry per element of the Cartesian product of the
ablation value-name sets, in `itertools.product` order; each entry is named
by the chosen value names joined with `'.'`; and each entry's override dict
is the in-order `update` of the chosen ablations' override dicts, so that a
key bound by several chosen ablations ends with the value from the *last*
ablation in list order that binds it (`lastLookup`).  The entry count is
the product of the per-ablation value counts, and the model is pure, so the
input is never mutated. -/
theorem c7_ablation_combinations
    (l : List (List (String × List (String × List (String × JVal)))))
    (hne : ∀ abl ∈ l, abl ≠ [])
    (hnod : ∀ abl ∈ l, ∀ nv ∈ abl, ∀ vd ∈ nv.2, (akeys vd.2).Nodup) :
    getAllAblationCombinations l =
        .ok ((itertoolsProduct (l.map valueNamesOf)).map (fun combo =>
          (joinDot combo, comboOverrides (l.zip ((l.map nameOf).zip combo)))))
    ∧ (itertoolsProduct (l.map valueNamesOf)).length
        = (l.map (fun abl => (valueNamesOf abl).length)).prod
    ∧ (∀ combo k, alookup (comboOverrides (l.zip ((l.map nameOf).zip combo))) k
        = lastLookup (chosenDicts l combo) k) := by
  refine ⟨?_, ?_, ?_⟩
  · simp only [getAllAblationCombinations, ablationKeys_ok l hne]
  · rw [itertoolsProduct_length, List.map_map]
    rfl
  · intro combo k
    rw [comboOverrides_eq l combo,
      alookup_foldl_dictUpdate (chosenDicts l combo) [] k (chosenDicts_nodup l combo hnod)]
    cases lastLookup (chosenDicts l combo) k <;> rfl

/-- C7's universal claim is too strong as literally stated: on an ablation
list containing an empty ablation dict, the code hits `list(ablation)[0]`
and raises `IndexError` instead of returning the (empty) product. -/
theorem c7_counterexample :
    getAllAblationCombinations [[]] = .error .indexError := rfl

/-- A concrete ablation list for the C7 witness: two ablations, whose
chosen dicts clash on the key `lr`. -/
def c7abl : List (List (String × List (String × List (String × JVal)))) :=
  [[("opt", [("adam", [("lr", .jint 1), ("eps", .jint 5)]), ("sgd", [("lr", .jint 2)])])],
   [("sched", [("cos", [("lr", .jint 3)])])]]

/-- Witness for the amended C7 at `c7abl`, together with the concretely
evaluated output: two combinations in product order, named with `'.'`, the
later ablation's `lr` winning. -/
theorem c7_ablation_combinations_witness :
    getAllAblationCombinations c7abl =
        .ok ((itertoolsProduct (c7abl.map valueNamesOf)).map (fun combo =>
          (joinDot combo, comboOverrides (c7abl.zip ((c7abl.map nameOf).zip combo)))))
    ∧ alookup (comboOverrides (c7abl.zip ((c7abl.map nameOf).zip ["adam", "cos"]))) "lr"
        = lastLookup (chosenDicts c7abl ["adam", "cos"]) "lr"
    ∧ getAllAblationCombinations c7abl =
        .ok [("adam.cos", [("lr", .jint 3), ("eps", .jint 5)]),
             ("sgd.cos", [("lr", .jint 3)])] := by
  have hne : ∀ abl ∈ c7abl, abl ≠ [] := by
    intro abl h
    simp only [c7abl, List.mem_cons, List.not_mem_nil, or_false] at h
    rcases h with rfl | rfl <;> simp
  have hnod : ∀ abl ∈ c7abl, ∀ nv ∈ abl, ∀ vd ∈ nv.2, (akeys vd.2).Nodup := by
    intro abl h nv hn vd hv
    simp only [c7abl, List.mem_cons, List.not_mem_nil, or_false] at h
    rcases h with rfl | rfl
    · simp only [List.mem_cons, List.not_mem_nil, or_false] at hn
      subst hn
      simp only [List.mem_cons, List.not_mem_nil, or_false] at hv
      rcases hv with rfl | rfl <;> decide
    · simp only [List.mem_cons, List.not_mem_nil, or_false] at hn
      subst hn
      simp only [List.mem_cons, List.not_mem_nil, or_false] at hv
      subst hv
      decide
  have h := c7_ablation_combinations c7abl hne hnod
  exact ⟨h.1, h.2.2 ["adam", "cos"] "lr", by rfl⟩


/-! ## Claim C9: the experiment composer
(`get_experiment_card_cfg_from_dict`, src/config/experiments.py 184-331, and
`load_composed_experiments_from_file`, 334-388)

YAML experiment cards are embedded as typed records whose `Option` fields
model `dict.get` on the corresponding keys.  Two side effects of the code
are modelled away, as marked below: `command_dict['file']` is read from
disk (the model carries the file's content directly), and
`OmegaConf.resolve` interpolates `${...}` references inside the card (the
model treats the card fields as already resolved, i.e. resolution is the
identity). -/

/-- One entry of an experiment card's `steps` list; `Option` fields model
`step_dict.get('name'|'group'|'base')`, `overrides` models
`step_dict.get('overrides', {})`. -/
structure StepDict where
  name : Option String := none
  group : Option String := none
  base : Option String := none
  overrides : List (String × JVal) := []
  deriving Repr, DecidableEq

/-- An experiment card dict.  `ablations = []` models both a missing
`ablations` key and an empty list (the code only tests falsiness);
`command` carries `(file content, kwargs)` — the content stands for
`PROJECT_ROOT.joinpath(command_dict['file']).read_text()`; `addName`
models `experiment_card_dict.get('add_name', True)`. -/
structure ExperimentCardDict where
  ablations : List (List (String × List (String × List (String × JVal)))) := []
  group : Option String := none
  base : Option String := none
  steps : List StepDict := []
  overrides : List (String × JVal) := []
  command : Option (String × List (String × JVal)) := none
  addName : Bool := true
  deriving Repr

/-- The `ExperimentCard` dataclass (src/config/experiments.py 26-46). -/
structure ExperimentCard where
  name : String
  base : String
  group : String
  overrides : List (String × JVal) := []
  dependsOn : Option String := none
  deriving Repr, DecidableEq

/-- `ExperimentCard.save_name`: `f"{self.group}.{self.name}"`. -/
def ExperimentCard.saveName (c : ExperimentCard) : String :=
  c.group ++ "." ++ c.name

/-- The `ComposedExperiments` dataclass (49-65); `step_cards` is an
insertion-ordered dict. -/
structure ComposedExperiments where
  name : String
  stepCards : List (String × ExperimentCard)
  commandTemplate : Option String := none
  commandKwargs : List (String × JVal) := []
  deriving Repr, DecidableEq

/-- The `card_name` accumulation of the step loop (290-298). -/
def cardName (name : String) (addName hasAblations hasSteps : Bool)
    (ablationName stepName : String) : String :=
  let n1 := if addName then name else ""
  let n2 := if hasAblations then n1 ++ (if addName then "." else "") ++ ablationName else n1
  if hasSteps then n2 ++ (if addName || hasAblations then "." else "") ++ stepName else n2

/-- The `for step_num, step_dict in enumerate(experiment_steps)` loop
(277-330): each step must carry `name`, `group` and `base` (else
`ValueError`); the card's overrides are
`merge(merge(deepcopy(experiment_overrides), ablation_overrides), step_overrides)`;
`depends_on` is the previous step's `save_name`; the card is stored under
its step name (`composed_experiments.step_cards[step_name] = card`). -/
def runSteps (name : String) (addName hasAblations hasSteps : Bool)
    (ablationName : String) (ablationOverrides experimentOverrides : List (String × JVal)) :
    List StepDict → Option String → List (String × ExperimentCard) →
    Except PyErr (List (String × ExperimentCard))
  | [], _, acc => .ok acc
  | sd :: rest, prev, acc =>
      match sd.name, sd.group, sd.base with
      | some stepName, some stepGroup, some stepBase =>
          let card : ExperimentCard :=
            { name := cardName name addName hasAblations hasSteps ablationName stepName,
              base := stepBase,
              group := stepGroup,
              overrides := merge (merge experimentOverrides ablationOverrides) sd.overrides,
              dependsOn := prev }
          runSteps name addName hasAblations hasSteps ablationName ablationOverrides
            experimentOverrides rest (some card.saveName) (ainsert acc stepName card)
      | _, _, _ => .error .valueError

/-- Error-propagating `List.map`: materialises a Python generator that the
caller drains into a list, stopping at the first raised exception. -/
def collectE (f : α → Except PyErr β) : List α → Except PyErr (List β)
  | [] => .ok []
  | x :: rest =>
      match f x with
      | .error e => .error e
      | .ok y =>
          match collectE f rest with
          | .error e => .error e
          | .ok ys => .ok (y :: ys)

/-- `get_experiment_card_cfg_from_dict(name, experiment_card_dict,
global_defaults)` (184-331), with the generator materialised as a list.
`globalOverrides` stands for `global_defaults.get('overrides', {})`. -/
def getExperimentCardCfgFromDict (name : String) (ecd : ExperimentCardDict)
    (globalOverrides : List (String × JVal)) :
    Except PyErr (List ComposedExperiments) :=
  let experimentOverrides := dictUpdate globalOverrides ecd.overrides
  if ecd.ablations.isEmpty && ecd.steps.isEmpty then
    match ecd.group, ecd.base with
    | none, _ => .error .valueError
    | some _, none => .error .valueError
    | some g, some b =>
        .ok [{ name := name,
               stepCards := [("single",
                 { name := name, base := b, group := g,
                   overrides := experimentOverrides })] }]
  else
    let hasAblations := !ecd.ablations.isEmpty
    match ((if hasAblations then getAllAblationCombinations ecd.ablations
           else .ok [("NONE", [])]) :
        Except PyErr (List (String × List (String × JVal)))) with
    | .error e => .error e
    | .ok ablations =>
        let hasSteps := !ecd.steps.isEmpty
        match ((if hasSteps then .ok ecd.steps
               else match ecd.group, ecd.base with
                 | none, _ => .error .valueError
                 | some _, none => .error .valueError
                 | some g, some b =>
                     .ok [{ name := some name, group := some g, base := some b }]) :
            Except PyErr (List StepDict)) with
        | .error e => .error e
        | .ok experimentSteps =>
            collectE (fun ab =>
              (runSteps name ecd.addName hasAblations hasSteps ab.1 ab.2
                  experimentOverrides experimentSteps none []).map
                (fun cards =>
                  { name := if hasAblations then name ++ "_" ++ ab.1 else name,
                    stepCards := cards,
                    commandTemplate := ecd.command.map (fun c => c.1),
                    commandKwargs := (ecd.command.map (fun c => c.2)).getD [] }))
              ablations

/-- The YAML file of `load_composed_experiments_from_file`:
`experiments` maps top-level names to cards (`KeyError` when missing),
`startingCommands` models `experiment_card_dict.get('starting_commands')`. -/
structure ExperimentFileDict where
  experiments : Option (List (String × ExperimentCardDict)) := none
  startingCommands : Option String := none
  deriving Repr

/-- The `save_name`s of every card of every composed experiment, in the
order `(e.save_name for ablation in composed_experiments for e in
ablation.values())` visits them. -/
def saveNamesOf (l : List ComposedExperiments) : List String :=
  (l.map (fun c => c.stepCards.map (fun sc => sc.2.saveName))).flatten

/-- `load_composed_experiments_from_file` (334-388): composes every
experiment card, then raises `ValueError` when `Counter` finds a
`save_name` with multiplicity above one. -/
def loadComposedExperimentsFromFile (d : ExperimentFileDict) :
    Except PyErr (List ComposedExperiments × Option String) :=
  match d.experiments with
  | none => .error .keyError
  | some exps =>
      match collectE (fun ne => getExperimentCardCfgFromDict ne.1 ne.2 []) exps with
      | .error e => .error e
      | .ok lists =>
          if ((((saveNamesOf lists.flatten).foldl bump []).filter
                (fun e => 1 < e.2)).map (fun e => e.1)).isEmpty then
            .ok (lists.flatten, d.startingCommands)
          else .error .valueError

theorem alookupD_foldl_bump [DecidableEq κ] (names : List κ) :
    ∀ (c : List (κ × Nat)) (k : κ),
      alookupD (names.foldl bump c) k 0 = alookupD c k 0 + names.count k := by
  induction names with
  | nil => intro c k; simp
  | cons n rest ih =>
      intro c k
      simp only [List.foldl_cons]
      rw [ih (bump c n) k]
      have hb : alookupD (bump c n) k 0 = alookupD c k 0 + (if k = n then 1 else 0) := by
        by_cases hk : k = n
        · subst hk
          rw [bump, alookupD, alookup_ainsert_self]
          simp [alookupD]
        · rw [bump, alookupD, alookup_ainsert_ne c n k _ (fun hc => hk hc.symm)]
          simp [alookupD, hk]
      rw [hb, List.count_cons]
      by_cases hk : k = n
      · subst hk
        have h1 : (k == k) = true := beq_self_eq_true k
        rw [if_pos rfl, if_pos h1]
        omega
      · have h2 : ¬((n == k) = true) := by
          simp only [beq_iff_eq]
          exact fun hc => hk hc.symm
        rw [if_neg hk, if_neg h2]
        omega

theorem akeys_foldl_bump_nodup [DecidableEq κ] (names : List κ) :
    ∀ (c : List (κ × Nat)), (akeys c).Nodup → (akeys (names.foldl bump c)).Nodup := by
  induction names with
  | nil => intro c h; exact h
  | cons n rest ih =>
      intro c h
      exact ih (bump c n) (akeys_ainsert_nodup c n _ h)

theorem dup_empty_iff (names : List String) :
    ((((names.foldl bump []).filter (fun e => 1 < e.2)).map (fun e => e.1)).isEmpty = true)
      ↔ names.Nodup := by
  have hcount : ∀ k, alookupD (names.foldl bump []) k 0 = names.count k := by
    intro k
    rw [alookupD_foldl_bump]
    simp [alookupD]
  have hnd : (akeys (names.foldl bump [])).Nodup :=
    akeys_foldl_bump_nodup names [] (by simp [akeys])
  rw [List.isEmpty_iff, List.map_eq_nil_iff, List.filter_eq_nil_iff]
  constructor
  · intro h
    rw [List.nodup_iff_count_le_one]
    intro k
    by_contra hgt
    have h2 : 1 < names.count k := Nat.not_le.mp hgt
    have hx : alookup (names.foldl bump []) k = some (names.count k) := by
      have hc := hcount k
      rw [alookupD] at hc
      cases hl : alookup (names.foldl bump []) k with
      | none => rw [hl] at hc; simp at hc; omega
      | some m => rw [hl] at hc; simp at hc; rw [hc]
    obtain ⟨e, he, hk1, hk2⟩ := alookup_val_mem _ k _ hx
    have hne := h e he
    rw [hk2] at hne
    simp at hne
    omega
  · intro h e he
    have hsome := alookup_of_mem_nodup _ hnd e he
    have hc := hcount e.1
    rw [alookupD, hsome] at hc
    simp at hc
    rw [List.nodup_iff_count_le_one] at h
    have hle := h e.1
    simp
    omega

/-- **C9.**  `load_composed_experiments_from_file` raises `KeyError` when
the file dict lacks an `experiments` key; once the cards compose without an
exception, it raises `ValueError` exactly when two composed experiment
cards (across all groups) share a `save_name` (`f"{group}.{name}"`), and
whenever it returns normally the `save_name`s of the returned cards are
pairwise distinct. -/
theorem c9_load_duplicate_check (d : ExperimentFileDict) :
    (d.experiments = none → loadComposedExperimentsFromFile d = .error .keyError)
    ∧ (∀ exps lists, d.experiments = some exps →
        collectE (fun ne => getExperimentCardCfgFromDict ne.1 ne.2 []) exps = .ok lists →
        (¬ (saveNamesOf lists.flatten).Nodup ↔
          loadComposedExperimentsFromFile d = .error .valueError))
    ∧ (∀ out, loadComposedExperimentsFromFile d = .ok out →
        (saveNamesOf out.1).Nodup) := by
  refine ⟨?_, ?_, ?_⟩
  · intro h
    simp [loadComposedExperimentsFromFile, h]
  · intro exps lists hd hcoll
    simp only [loadComposedExperimentsFromFile, hd, hcoll]
    by_cases hdup : ((((saveNamesOf lists.flatten).foldl bump []).filter
        (fun e => 1 < e.2)).map (fun e => e.1)).isEmpty = true
    · rw [if_pos hdup]
      constructor
      · intro hn
        exact absurd ((dup_empty_iff _).mp hdup) hn
      · intro hc
        exact Except.noConfusion hc
    · rw [if_neg hdup]
      constructor
      · intro _
        rfl
      · intro _ hnodup
        exact hdup ((dup_empty_iff _).mpr hnodup)
  · intro out hout
    cases hd : d.experiments with
    | none => simp [loadComposedExperimentsFromFile, hd] at hout
    | some exps =>
        cases hcoll : collectE (fun ne => getExperimentCardCfgFromDict ne.1 ne.2 []) exps with
        | error e => simp [loadComposedExperimentsFromFile, hd, hcoll] at hout
        | ok lists =>
            simp only [loadComposedExperimentsFromFile, hd, hcoll] at hout
            by_cases hdup : ((((saveNamesOf lists.flatten).foldl bump []).filter
                (fun e => 1 < e.2)).map (fun e => e.1)).isEmpty = true
            · rw [if_pos hdup] at hout
              have h1 := (dup_empty_iff (saveNamesOf lists.flatten)).mp hdup
              have h2 : (lists.flatten, d.startingCommands) = out := by
                simpa using hout
              rw [← h2]
              exact h1
            · rw [if_neg hdup] at hout
              exact Except.noConfusion hout


/-- Experiments for the C9 witness: two plain cards with distinct
`save_name`s. -/
def c9exps : List (String × ExperimentCardDict) :=
  [("exp1", { group := some "g", base := some "b" }),
   ("exp2", { group := some "g", base := some "b2" })]

/-- A well-formed experiment file for the C9 witness. -/
def c9file : ExperimentFileDict := { experiments := some c9exps }

/-- Its composed cards. -/
def c9okComposed : List ComposedExperiments :=
  [{ name := "exp1",
     stepCards := [("single",
       { name := "exp1", base := "b", group := "g", overrides := [], dependsOn := none })] },
   { name := "exp2",
     stepCards := [("single",
       { name := "exp2", base := "b2", group := "g", overrides := [], dependsOn := none })] }]

/-- Experiments whose two cards collide on `save_name` `"g.s"`
(`add_name: false` keeps the top-level names out of the card names). -/
def c9dupExps : List (String × ExperimentCardDict) :=
  [("e1", { steps := [{ name := some "s", group := some "g", base := some "b" }],
            addName := false }),
   ("e2", { steps := [{ name := some "s", group := some "g", base := some "b2" }],
            addName := false })]

/-- The duplicate-save-name experiment file for the C9 witness. -/
def c9dup : ExperimentFileDict := { experiments := some c9dupExps }

/-- The card lists `c9dupExps` composes to (both cards named `"g.s"`). -/
def c9dupLists : List (List ComposedExperiments) :=
  [[{ name := "e1",
      stepCards := [("s",
        { name := "s", base := "b", group := "g", overrides := [], dependsOn := none })] }],
   [{ name := "e2",
      stepCards := [("s",
        { name := "s", base := "b2", group := "g", overrides := [], dependsOn := none })] }]]

/-- Witness for C9: a file without `experiments` raises `KeyError`, the
colliding file raises `ValueError`, and the well-formed file's returned
cards have pairwise-distinct `save_name`s. -/
theorem c9_load_duplicate_check_witness :
    loadComposedExperimentsFromFile { experiments := none } = .error .keyError
    ∧ loadComposedExperimentsFromFile c9dup = .error .valueError
    ∧ (saveNamesOf c9okComposed).Nodup :=
  ⟨(c9_load_duplicate_check { experiments := none }).1 rfl,
   ((c9_load_duplicate_check c9dup).2.1 c9dupExps c9dupLists rfl (by rfl)).mp (by decide),
   (c9_load_duplicate_check c9file).2.2 (c9okComposed, none) (by rfl)⟩


/-! ## Claim C10: `generate_code_predictions` (src/evaluation/evaluation.py 38-138)

The generation pipeline is abstracted as a function from an input sequence
to the list of generated texts of one call (the code sets
`num_return_sequences = batch_size`, so one call is one batch); `prep`
stands for the `prep_col` dataset map.  Logging, tqdm and the
`generation_kwargs` bookkeeping have no effect on the returned dict and
are dropped. -/

/-- One dataset sample as the generation loop reads it: `input_sequence`,
`input_len`, `target` and `idx`. -/
structure EvalSample where
  inputSequence : String
  inputLen : Nat
  target : String
  idx : Nat
  deriving Repr, DecidableEq

/-- The `for i in range(generate_steps_per_sample)` loop for one sample:
each iteration extends the sample's generations with one batch from the
pipeline, each entry stripped of the prompt's first `input_len` characters
when `remove_input_ids_from_output` is set. -/
def genForSample (pipe : String → List String) (removeInputIds : Bool) :
    Nat → EvalSample → List String
  | 0, _ => []
  | n + 1, s =>
      (if removeInputIds then (pipe s.inputSequence).map (fun g => ⟨g.data.drop s.inputLen⟩)
       else pipe s.inputSequence)
        ++ genForSample pipe removeInputIds n s

/-- The per-sample loop of `generate_code_predictions`: the `assert
len(generated_for_current_sample) == seq_per_sample`, then the appends to
`predictions`, `labels` and `indices`.  Returns the triple
`(indices, labels, predictions)`. -/
def gcpLoop (pipe : String → List String) (removeInputIds : Bool)
    (steps seqPerSample : Nat) :
    List EvalSample → Except PyErr (List Nat × List String × List (List String))
  | [] => .ok ([], [], [])
  | s :: rest =>
      let gen := genForSample pipe removeInputIds steps s
      if gen.length = seqPerSample then
        match gcpLoop pipe removeInputIds steps seqPerSample rest with
        | .error e => .error e
        | .ok (is, ls, ps) => .ok (s.idx :: is, s.target :: ls, gen :: ps)
      else .error .assertionError

/-- `generate_code_predictions`: `divmod(seq_per_sample, batch_size)`
(`ZeroDivisionError` when `batch_size == 0`), `ValueError` on a non-zero
remainder, then the generation loop over the prepped dataset. -/
def generateCodePredictions (pipe : String → List String)
    (prep : EvalSample → EvalSample) (dataset : List EvalSample)
    (batchSize seqPerSample : Nat) (removeInputIds : Bool) :
    Except PyErr (List Nat × List String × List (List String)) :=
  if batchSize = 0 then .error .zeroDivisionError
  else if 0 < seqPerSample % batchSize then .error .valueError
  else gcpLoop pipe removeInputIds (seqPerSample / batchSize) seqPerSample
    (dataset.map prep)

theorem genForSample_length (pipe : String → List String) (rii : Bool) (bs : Nat)
    (hpipe : ∀ str, (pipe str).length = bs) :
    ∀ (n : Nat) (s : EvalSample),
      (genForSample pipe rii n s).length = n * bs := by
  intro n
  induction n with
  | zero => intro s; simp [genForSample]
  | succ m ih =>
      intro s
      simp only [genForSample, List.length_append, ih s]
      cases rii <;> simp [hpipe s.inputSequence] <;> ring

theorem gcpLoop_char (pipe : String → List String) (rii : Bool)
    (steps sps bs : Nat) (hpipe : ∀ str, (pipe str).length = bs)
    (hsteps : steps * bs = sps) :
    ∀ ds, gcpLoop pipe rii steps sps ds =
      .ok (ds.map (fun s => s.idx), ds.map (fun s => s.target),
           ds.map (fun s => genForSample pipe rii steps s)) := by
  intro ds
  induction ds with
  | nil => rfl
  | cons s rest ih =>
      simp only [gcpLoop, genForSample_length pipe rii bs hpipe steps s, hsteps,
        eq_self_iff_true, if_true, ih, List.map_cons]

/-- **C10.**  For a positive batch size and a pipeline that returns one
batch (`num_return_sequences = batch_size` entries) per call,
`generate_code_predictions` raises `ValueError` exactly when
`seq_per_sample` is not divisible by `batch_size`; when the division is
exact it returns normally, and the returned `indices`, `labels` and
`predictions` have one entry per dataset sample, in dataset order (the
sample's `idx`, its `target`, and its generations), with every entry of
`predictions` holding exactly `seq_per_sample` generated sequences.
(`batch_size = 0` is excluded: there the code raises `ZeroDivisionError`
inside `divmod`, not `ValueError` — see the counterexample.) -/
theorem c10_generate_code_predictions (pipe : String → List String)
    (prep : EvalSample → EvalSample) (dataset : List EvalSample)
    (batchSize seqPerSample : Nat) (removeInputIds : Bool)
    (hbs : 1 ≤ batchSize) (hpipe : ∀ str, (pipe str).length = batchSize) :
    (generateCodePredictions pipe prep dataset batchSize seqPerSample removeInputIds
        = .error .valueError ↔ ¬ (batchSize ∣ seqPerSample))
    ∧ (∀ out, generateCodePredictions pipe prep dataset batchSize seqPerSample removeInputIds
        = .ok out →
        out.1 = (dataset.map prep).map (fun s => s.idx)
        ∧ out.2.1 = (dataset.map prep).map (fun s => s.target)
        ∧ out.2.2.length = dataset.length
        ∧ (∀ p ∈ out.2.2, p.length = seqPerSample))
    ∧ (batchSize ∣ seqPerSample →
        ∃ out, generateCodePredictions pipe prep dataset batchSize seqPerSample removeInputIds
          = .ok out) := by
  have hbz : ¬ (batchSize = 0) := by omega
  have hdvd : batchSize ∣ seqPerSample ↔ ¬ (0 < seqPerSample % batchSize) := by
    rw [Nat.dvd_iff_mod_eq_zero]
    omega
  by_cases hrem : 0 < seqPerSample % batchSize
  · have hnd : ¬ (batchSize ∣ seqPerSample) := by
      rw [hdvd]
      simp [hrem]
    refine ⟨?_, ?_, ?_⟩
    · simp only [generateCodePredictions, if_neg hbz, if_pos hrem]
      exact ⟨fun _ => hnd, fun _ => by trivial⟩
    · intro out hout
      simp only [generateCodePredictions, if_neg hbz, if_pos hrem] at hout
      exact Except.noConfusion hout
    · intro hd
      exact absurd hd hnd
  · have hd : batchSize ∣ seqPerSample := hdvd.mpr hrem
    have hsteps : seqPerSample / batchSize * batchSize = seqPerSample :=
      Nat.div_mul_cancel hd
    have hloop := gcpLoop_char pipe removeInputIds (seqPerSample / batchSize)
      seqPerSample batchSize hpipe hsteps (dataset.map prep)
    refine ⟨?_, ?_, ?_⟩
    · simp only [generateCodePredictions, if_neg hbz, if_neg hrem, hloop]
      constructor
      · intro hc
        exact Except.noConfusion hc
      · intro hc
        exact absurd hd hc
    · intro out hout
      simp only [generateCodePredictions, if_neg hbz, if_neg hrem, hloop] at hout
      have hout2 : (((dataset.map prep).map (fun s => s.idx),
          (dataset.map prep).map (fun s => s.target),
          (dataset.map prep).map (fun s => genForSample pipe removeInputIds
            (seqPerSample / batchSize) s)) :
            List Nat × List String × List (List String)) = out := by
        simpa using hout
      rw [← hout2]
      refine ⟨rfl, rfl, by simp, ?_⟩
      intro p hp
      simp only [List.mem_map] at hp
      obtain ⟨s, _, rfl⟩ := hp
      rw [genForSample_length pipe removeInputIds batchSize hpipe, hsteps]
    · intro _
      exact ⟨_, by
        simp only [generateCodePredictions, if_neg hbz, if_neg hrem]
        exact hloop⟩

/-- C10's "if and only if" fails at `batch_size = 0`: `seq_per_sample = 4`
is not divisible by `0`, yet the code raises `ZeroDivisionError` (from
`divmod`), not `ValueError`. -/
theorem c10_counterexample :
    generateCodePredictions (fun _ => []) id [] 0 4 false = .error .zeroDivisionError
    ∧ ¬ ((0 : Nat) ∣ 4) :=
  ⟨rfl, by decide⟩

/-- A two-sequences-per-call pipeline for the C10 witness. -/
def c10pipe : String → List String := fun s => [s ++ "A", s ++ "B"]

/-- A two-sample dataset for the C10 witness. -/
def c10ds : List EvalSample :=
  [{ inputSequence := "x", inputLen := 1, target := "tx", idx := 0 },
   { inputSequence := "y", inputLen := 1, target := "ty", idx := 1 }]

/-- Witness for the amended C10 at `batch_size = 2`,
`seq_per_sample = 4`: the ValueError criterion and a normal return, whose
components evaluate concretely. -/
theorem c10_generate_code_predictions_witness :
    (generateCodePredictions c10pipe id c10ds 2 4 false = .error .valueError
      ↔ ¬ ((2 : Nat) ∣ 4))
    ∧ (∃ out, generateCodePredictions c10pipe id c10ds 2 4 false = .ok out)
    ∧ generateCodePredictions c10pipe id c10ds 2 4 false
        = .ok ([0, 1], ["tx", "ty"], [["xA", "xB", "xA", "xB"], ["yA", "yB", "yA", "yB"]]) := by
  have h := c10_generate_code_predictions c10pipe id c10ds 2 4 false (by decide)
    (fun str => rfl)
  exact ⟨h.1, h.2.2 (by decide), by rfl⟩


/-! ## Claim C8: the tutorial HTML parsers
(`TutorialHTMLParser.__call__` and `parse_section`,
src/tutorials/html_parsers.py 129-214, with the four registered
subclasses)

The BeautifulSoup document is embedded as a tree of elements (name,
attributes, class list, children) and navigable strings; `__call__` is a
function of that tree and of the parser's class alone — the classes keep
no mutable instance state, which the embedding shows by construction.
`unidecode` of ASCII text is the identity, as elsewhere in this
development. -/

/-- A parsed HTML node: a `NavigableString` or a `Tag` with its name,
attribute dict, class list (`attrs.get('class', [])`) and children in
document order. -/
inductive Node where
  | text (s : String)
  | elem (name : String) (attrs : List (String × String)) (classes : List String)
      (children : List Node)
  deriving Repr

/-- The `TagType` enum (PARAGRAPH, CODE, SECTION, LIST, IGNORED,
UNKNOWN). -/
inductive TagType where
  | paragraph
  | code
  | sec
  | lst
  | ignored
  | unknown
  deriving Repr, DecidableEq

/-- The four registered parser subclasses. -/
inductive ParserKind where
  | lxml
  | sympy
  | passlib
  | pynacl
  deriving Repr, DecidableEq

/-- A value of a parsed section dict: the `id`/`parent_id`/`section_id`/
`child_idx` fields are integers, the rest strings. -/
inductive SecVal where
  | n (v : Int)
  | s (v : String)
  deriving Repr, DecidableEq

/-- List-of-characters prefix test. -/
def leadsWith : List Char → List Char → Bool
  | [], _ => true
  | _ :: _, [] => false
  | a :: as, b :: bs => a = b && leadsWith as bs

/-- Python `pat in s` on character lists. -/
def hasSub (pat : List Char) : List Char → Bool
  | [] => leadsWith pat []
  | c :: rest => leadsWith pat (c :: rest) || hasSub pat rest

def PARAGRAPH_CLASSES : List String :=
  ["math", "admonition", "topic", "versionadded", "versionchanged", "note", "deprecated"]

def CODE_CLASSES : List String := ["doctest", "syntax"]

def IGNORED_CLASSES : List String := ["toctree-wrapper", "graphviz"]

def IGNORED_TAGS : List String := ["figure"]

/-- `header_tag = [f'h{j}' for j in range(15)]`. -/
def headerTags : List String :=
  ["h0", "h1", "h2", "h3", "h4", "h5", "h6", "h7",
   "h8", "h9", "h10", "h11", "h12", "h13", "h14"]

/-- `TutorialHTMLParser.get_type_from_div_tag` (110-123). -/
def getTypeFromDivTag (classes : List String) : TagType :=
  if classes.any (fun c => hasSub "highlight-".data c.data) then .code
  else if CODE_CLASSES.any (fun c => classes.any (fun x => x = c)) then .code
  else if PARAGRAPH_CLASSES.any (fun c => classes.any (fun x => x = c)) then .paragraph
  else if IGNORED_CLASSES.any (fun c => classes.any (fun x => x = c)) then .ignored
  else .unknown

/-- `get_type_of_tag` of each subclass, a function of the tag's name and
class list. -/
def getTypeOfTag (kind : ParserKind) (nm : String) (classes : List String) : TagType :=
  match kind with
  | .lxml =>
      if nm = "div" then
        if classes.any (fun x => x = "section") then .sec
        else if classes.any (fun x => x = "syntax") then .code
        else if classes.any (fun x => x = "note") then .paragraph
        else getTypeFromDivTag classes
      else if nm = "pre" then
        if classes.any (fun x => x = "literal-block") then .code else .unknown
      else if nm = "p" then .paragraph
      else if nm = "ul" || nm = "ol" || nm = "blockquote" then .lst
      else if nm = "table" || nm = "img" || nm = "dl" then .ignored
      else .unknown
  | .sympy =>
      if nm = "section" then .sec
      else if nm = "div" then getTypeFromDivTag classes
      else if nm = "p" then .paragraph
      else if nm = "ul" || nm = "ol" || nm = "blockquote" then .lst
      else if nm = "table" || nm = "img" || nm = "dl" || nm = "aside" then .ignored
      else .unknown
  | .passlib =>
      if nm = "div" then
        if classes.any (fun x => x = "section") then .sec
        else getTypeFromDivTag classes
      else if nm = "p" then .paragraph
      else if nm = "ul" || nm = "ol" || nm = "blockquote" then .lst
      else if nm = "table" || nm = "img" || nm = "dl" || nm = "aside" then .ignored
      else .unknown
  | .pynacl =>
      if nm = "section" then .sec
      else if nm = "div" then getTypeFromDivTag classes
      else if nm = "p" then .paragraph
      else if nm = "ul" || nm = "ol" || nm = "blockquote" then .lst
      else if nm = "table" || nm = "img" || nm = "dl" || nm = "aside" then .ignored
      else .unknown

mutual

/-- `tag.get_text()`: the concatenation of all string descendants. -/
def Node.getText : Node → String
  | .text s => s
  | .elem _ _ _ ch => getTextL ch

def getTextL : List Node → String
  | [] => ""
  | c :: rest => Node.getText c ++ getTextL rest

end

mutual

/-- `tag.find(...)` restricted to the subtree rooted at a node: the first
descendant (pre-order) satisfying `test`, the node itself excluded at the
top level by starting from `findTagL` on its children. -/
def findTagN (test : Node → Bool) : Node → Option Node
  | .text _ => none
  | .elem n a c ch =>
      if test (.elem n a c ch) then some (.elem n a c ch) else findTagL test ch

def findTagL (test : Node → Bool) : List Node → Option Node
  | [] => none
  | c :: rest =>
      match findTagN test c with
      | some r => some r
      | none => findTagL test rest

end

mutual

/-- `tag.find_all(...)`: all matching descendants in pre-order. -/
def findAllN (test : Node → Bool) : Node → List Node
  | .text _ => []
  | .elem n a c ch =>
      (if test (.elem n a c ch) then [Node.elem n a c ch] else []) ++ findAllList test ch

def findAllList (test : Node → Bool) : List Node → List Node
  | [] => []
  | c :: rest => findAllN test c ++ findAllList test rest

end

mutual

/-- `get_text` after `tag.find('a').extract()`: concatenate all string
descendants, skipping the whole subtree of the first `a` element in
pre-order.  The boolean carries "the `a` was already found". -/
def textSkipN : Node → Bool → Bool × String
  | .text s, found => (found, s)
  | .elem n _ _ ch, found =>
      if n = "a" && !found then (true, "") else textSkipL ch found

def textSkipL : List Node → Bool → Bool × String
  | [], found => (found, "")
  | c :: rest, found =>
      let r := textSkipN c found
      let r2 := textSkipL rest r.1
      (r2.1, r.2 ++ r2.2)

end

/-- `DOUBLE_WHITESPACE.sub(' ', -)`: each maximal run of two or more
whitespace characters becomes a single space; a lone whitespace character
is kept as it is.  The flag records being inside an already-replaced
run. -/
def collapseWsF : Bool → List Char → List Char
  | _, [] => []
  | inRun, c :: rest =>
      if isPyWs c then
        if inRun then collapseWsF true rest
        else
          match rest with
          | c2 :: _ =>
              if isPyWs c2 then ' ' :: collapseWsF true rest
              else c :: collapseWsF false rest
          | [] => [c]
      else c :: collapseWsF false rest

/-- `str.replace('\n', ' ')`. -/
def pyReplaceNl (l : List Char) : List Char :=
  l.map (fun c => if c = '\n' then ' ' else c)

/-- `parse_paragraph` (86-90). -/
def parseParagraph (t : Node) : String :=
  ⟨collapseWsF false (pyReplaceNl (unidecode (Node.getText t)).data)⟩

/-- `parse_title`: the base class cleans the tag's text; the sympy,
passlib and pynacl overrides first `extract()` the first `a` link. -/
def parseTitle (kind : ParserKind) (t : Node) : String :=
  match kind with
  | .lxml => unidecode (Node.getText t)
  | _ =>
      match t with
      | .text s => unidecode s
      | .elem _ _ _ ch => unidecode (textSkipL ch false).2

/-- `parse_code`: the base class cleans the tag's text; the sympy, passlib
and pynacl overrides `assert` a `pre` descendant (an `AssertionError` when
absent) and left-strip its text. -/
def parseCode (kind : ParserKind) (t : Node) : Except PyErr String :=
  match kind with
  | .lxml => .ok (unidecode (Node.getText t))
  | _ =>
      match (match t with
             | .text _ => none
             | .elem _ _ _ ch =>
                 findTagL (fun x => match x with
                   | .elem nm _ _ _ => nm = "pre"
                   | _ => false) ch) with
      | none => .error .assertionError
      | some preTag => .ok (pyLStrip (unidecode (Node.getText preTag)))

/-- Python `'\n'.join(lines)`. -/
def joinLines : List String → String
  | [] => ""
  | [x] => x
  | x :: rest => x ++ "\n" ++ joinLines rest

/-- `parse_list` (80-84): `'* '`-bulleted texts of every `li` descendant,
newline-joined and cleaned. -/
def parseList (t : Node) : String :=
  let items :=
    match t with
    | .text _ => []
    | .elem _ _ _ ch =>
        findAllList (fun x => match x with
          | .elem nm _ _ _ => nm = "li"
          | _ => false) ch
  unidecode (joinLines (items.map (fun li => "* " ++ Node.getText li)))

/-- The eight-field dict `parse_section` yields for one content tag, in
insertion order. -/
def mkSectionDict (idv parId secId : Int) (strId : String) (childIdx : Int)
    (title txt tagStr : String) : List (String × SecVal) :=
  [("id", .n idv), ("parent_id", .n parId), ("section_id", .n secId),
   ("section_str_id", .s strId), ("child_idx", .n childIdx),
   ("section_title", .s title), ("text", .s txt), ("tag", .s tagStr)]

mutual

/-- `parse_section(section, parent_id, id_counter)` (129-197), with the
generator materialised as the list of `(id_counter, out)` yields.
`section.attrs['id']` raises `KeyError` when absent (`AttributeError` on a
navigable string, which has no `attrs`). -/
def parseSectionN (kind : ParserKind) : Node → Int → Int →
    Except PyErr (List (Int × List (String × SecVal)))
  | .text _, _, _ => .error .attributeError
  | .elem _ attrs _ children, parentId, idCounter =>
      match alookup attrs "id" with
      | none => .error .keyError
      | some strId =>
          parseChildren kind children 0 strId (idCounter + 1) parentId (idCounter + 1) none

/-- The `for i, tag in enumerate(section.children)` loop of
`parse_section`: skips strings, parses at most one header (a second one
fails the `assert`), skips `IGNORED_TAGS`, recurses into subsections
(adopting the last yielded id as the counter), decrements the counter and
skips empty-text tags, raises `ValueError` on content before any title or
on an unknown tag type, and otherwise yields the eight-field dict. -/
def parseChildren (kind : ParserKind) :
    List Node → Int → String → Int → Int → Int → Option String →
    Except PyErr (List (Int × List (String × SecVal)))
  | [], _, _, _, _, _, _ => .ok []
  | c :: rest, i, strId, secId, parId, ctr, title =>
      match c with
      | .text _ => parseChildren kind rest (i + 1) strId secId parId ctr title
      | .elem nm _ cls _ =>
          if headerTags.any (fun x => x = nm) then
            match title with
            | some _ => .error .assertionError
            | none =>
                parseChildren kind rest (i + 1) strId secId parId ctr
                  (some (parseTitle kind c))
          else if IGNORED_TAGS.any (fun x => x = nm) then
            parseChildren kind rest (i + 1) strId secId parId ctr title
          else
            match getTypeOfTag kind nm cls with
            | .sec =>
                match parseSectionN kind c secId ctr with
                | .error e => .error e
                | .ok childYields =>
                    match parseChildren kind rest (i + 1) strId secId parId
                        (childYields.foldl (fun _ y => y.1) ctr) title with
                    | .error e => .error e
                    | .ok more => .ok (childYields ++ more)
            | ttype =>
                if (pyStrip (unidecode (Node.getText c))).data = [] then
                  parseChildren kind rest (i + 1) strId secId parId (ctr - 1) title
                else
                  match title with
                  | none => .error .valueError
                  | some t =>
                      match ttype with
                      | .ignored =>
                          parseChildren kind rest (i + 1) strId secId parId ctr title
                      | .paragraph =>
                          match parseChildren kind rest (i + 1) strId secId parId
                              (ctr + 1) title with
                          | .error e => .error e
                          | .ok more =>
                              .ok ((ctr + 1, mkSectionDict (ctr + 1) parId secId strId i t
                                (parseParagraph c) "p") :: more)
                      | .code =>
                          match parseCode kind c with
                          | .error e => .error e
                          | .ok txt =>
                              match parseChildren kind rest (i + 1) strId secId parId
                                  (ctr + 1) title with
                              | .error e => .error e
                              | .ok more =>
                                  .ok ((ctr + 1, mkSectionDict (ctr + 1) parId secId strId i t
                                    txt "code") :: more)
                      | .lst =>
                          match parseChildren kind rest (i + 1) strId secId parId
                              (ctr + 1) title with
                          | .error e => .error e
                          | .ok more =>
                              .ok ((ctr + 1, mkSectionDict (ctr + 1) parId secId strId i t
                                (parseList c) "p") :: more)
                      | _ => .error .valueError

end

/-- A `div` whose class list holds `cls`. -/
def isDivWithClass (cls : String) : Node → Bool
  | .elem nm _ classes _ => nm = "div" && classes.any (fun x => x = cls)
  | _ => false

/-- An element named `nm`. -/
def isNamed (nm : String) : Node → Bool
  | .elem n _ _ _ => n = nm
  | _ => false

/-- A `div` with `itemprop="articleBody"`. -/
def isDivArticleBody : Node → Bool
  | .elem nm attrs _ _ => nm = "div" && ((alookup attrs "itemprop").getD "") = "articleBody"
  | _ => false

/-- Each subclass's `get_header_and_sections`: locate the body container
(`AttributeError` when `soup.find` returns `None`), then take its direct
children matching the section shape (`recursive=False`). -/
def getHeaderAndSections (kind : ParserKind) (soup : Node) : Except PyErr (List Node) :=
  let bodyTest :=
    match kind with
    | .lxml => isDivWithClass "document"
    | .sympy => isDivWithClass "body"
    | .passlib => isDivWithClass "body"
    | .pynacl => isDivArticleBody
  let secTest :=
    match kind with
    | .lxml => isDivWithClass "section"
    | .sympy => isNamed "section"
    | .passlib => isDivWithClass "section"
    | .pynacl => isNamed "section"
  match (match soup with
         | .text _ => none
         | .elem _ _ _ ch => findTagL bodyTest ch) with
  | none => .error .attributeError
  | some body =>
      match body with
      | .text _ => .error .attributeError
      | .elem _ _ _ ch => .ok (ch.filter secTest)

/-- The `for s in sections` loop of `__call__` (205-212): each first-level
section is parsed with `parent_id = 0`, the id counter carrying over via
the last yielded id. -/
def callLoop (kind : ParserKind) :
    List Node → Int → Except PyErr (List (List (List (String × SecVal))))
  | [], _ => .ok []
  | s :: rest, ctr =>
      match parseSectionN kind s 0 ctr with
      | .error e => .error e
      | .ok yields =>
          match callLoop kind rest (yields.foldl (fun _ y => y.1) ctr) with
          | .error e => .error e
          | .ok more => .ok (yields.map (fun y => y.2) :: more)

/-- `TutorialHTMLParser.__call__(raw_html)` (199-214) on the parsed
document tree: the list of per-section lists of section dicts. -/
def parserCall (kind : ParserKind) (soup : Node) :
    Except PyErr (List (List (List (String × SecVal)))) :=
  match getHeaderAndSections kind soup with
  | .error e => .error e
  | .ok sections => callLoop kind sections 0


theorem parseChildren_shape (kind : ParserKind) :
    ∀ (n : Nat) (cs : List Node), sizeOf cs ≤ n →
      ∀ i strId secId parId ctr title out,
        parseChildren kind cs i strId secId parId ctr title = .ok out →
        ∀ y ∈ out, ∃ a b c d e f g h', y.2 = mkSectionDict a b c d e f g h' := by
  intro n
  induction n with
  | zero =>
      intro cs hcs
      cases cs with
      | nil =>
          intro i strId secId parId ctr title out hout y hy
          simp only [parseChildren] at hout
          have hout2 : ([] : List (Int × List (String × SecVal))) = out := by
            simpa using hout
          rw [← hout2] at hy
          simp at hy
      | cons c rest =>
          exfalso
          simp only [List.cons.sizeOf_spec] at hcs
          omega
  | succ m ih =>
      intro cs hcs
      cases cs with
      | nil =>
          intro i strId secId parId ctr title out hout y hy
          simp only [parseChildren] at hout
          have hout2 : ([] : List (Int × List (String × SecVal))) = out := by
            simpa using hout
          rw [← hout2] at hy
          simp at hy
      | cons c rest =>
          intro i strId secId parId ctr title out hout y hy
          have hszr : sizeOf rest ≤ m := by
            simp only [List.cons.sizeOf_spec] at hcs
            omega
          cases c with
          | text s =>
              simp only [parseChildren] at hout
              exact ih rest hszr _ _ _ _ _ _ _ hout y hy
          | elem nm attrs cls ch =>
              have hszch : sizeOf ch ≤ m := by
                simp only [List.cons.sizeOf_spec, Node.elem.sizeOf_spec] at hcs
                omega
              simp only [parseChildren] at hout
              by_cases hh : (headerTags.any fun x => x = nm) = true
              · rw [if_pos hh] at hout
                cases title with
                | some t => exact Except.noConfusion hout
                | none => exact ih rest hszr _ _ _ _ _ _ _ hout y hy
              · rw [if_neg hh] at hout
                by_cases hig : (IGNORED_TAGS.any fun x => x = nm) = true
                · rw [if_pos hig] at hout
                  exact ih rest hszr _ _ _ _ _ _ _ hout y hy
                · rw [if_neg hig] at hout
                  cases htt : getTypeOfTag kind nm cls with
                  | sec =>
                      rw [htt] at hout
                      simp only [] at hout
                      cases hps : parseSectionN kind (Node.elem nm attrs cls ch) secId ctr with
                      | error e =>
                          rw [hps] at hout
                          simp only [] at hout
                          exact Except.noConfusion hout
                      | ok childYields =>
                          rw [hps] at hout
                          simp only [] at hout
                          cases hrec : parseChildren kind rest (i + 1) strId secId parId
                              (childYields.foldl (fun _ y => y.1) ctr) title with
                          | error e =>
                              rw [hrec] at hout
                              simp only [] at hout
                              exact Except.noConfusion hout
                          | ok more =>
                              rw [hrec] at hout
                              have hout2 : childYields ++ more = out := by simpa using hout
                              rw [← hout2] at hy
                              rcases List.mem_append.mp hy with hyl | hyr
                              · simp only [parseSectionN] at hps
                                cases hid : alookup attrs "id" with
                                | none =>
                                    rw [hid] at hps
                                    simp only [] at hps
                                    exact Except.noConfusion hps
                                | some sId =>
                                    rw [hid] at hps
                                    simp only [] at hps
                                    exact ih ch hszch _ _ _ _ _ _ _ hps y hyl
                              · exact ih rest hszr _ _ _ _ _ _ _ hrec y hyr
                  | paragraph =>
                      rw [htt] at hout
                      simp only [] at hout
                      by_cases hemp :
                          (pyStrip (unidecode (Node.getText (Node.elem nm attrs cls ch)))).data = []
                      · rw [if_pos hemp] at hout
                        exact ih rest hszr _ _ _ _ _ _ _ hout y hy
                      · rw [if_neg hemp] at hout
                        cases title with
                        | none => exact Except.noConfusion hout
                        | some t =>
                            simp only [] at hout
                            cases hrec : parseChildren kind rest (i + 1) strId secId parId
                                (ctr + 1) (some t) with
                            | error e =>
                                rw [hrec] at hout
                                simp only [] at hout
                                exact Except.noConfusion hout
                            | ok more =>
                                rw [hrec] at hout
                                have hout2 : (ctr + 1, mkSectionDict (ctr + 1) parId secId strId
                                    i t (parseParagraph (Node.elem nm attrs cls ch)) "p")
                                    :: more = out := by simpa using hout
                                rw [← hout2] at hy
                                rcases List.mem_cons.mp hy with rfl | hmem
                                · exact ⟨_, _, _, _, _, _, _, _, rfl⟩
                                · exact ih rest hszr _ _ _ _ _ _ _ hrec y hmem
                  | code =>
                      rw [htt] at hout
                      simp only [] at hout
                      by_cases hemp :
                          (pyStrip (unidecode (Node.getText (Node.elem nm attrs cls ch)))).data = []
                      · rw [if_pos hemp] at hout
                        exact ih rest hszr _ _ _ _ _ _ _ hout y hy
                      · rw [if_neg hemp] at hout
                        cases title with
                        | none => exact Except.noConfusion hout
                        | some t =>
                            simp only [] at hout
                            cases hpc : parseCode kind (Node.elem nm attrs cls ch) with
                            | error e =>
                                rw [hpc] at hout
                                simp only [] at hout
                                exact Except.noConfusion hout
                            | ok txt =>
                                rw [hpc] at hout
                                simp only [] at hout
                                cases hrec : parseChildren kind rest (i + 1) strId secId parId
                                    (ctr + 1) (some t) with
                                | error e =>
                                    rw [hrec] at hout
                                    simp only [] at hout
                                    exact Except.noConfusion hout
                                | ok more =>
                                    rw [hrec] at hout
                                    have hout2 : (ctr + 1, mkSectionDict (ctr + 1) parId secId
                                        strId i t txt "code") :: more = out := by
                                      simpa using hout
                                    rw [← hout2] at hy
                                    rcases List.mem_cons.mp hy with rfl | hmem
                                    · exact ⟨_, _, _, _, _, _, _, _, rfl⟩
                                    · exact ih rest hszr _ _ _ _ _ _ _ hrec y hmem
                  | lst =>
                      rw [htt] at hout
                      simp only [] at hout
                      by_cases hemp :
                          (pyStrip (unidecode (Node.getText (Node.elem nm attrs cls ch)))).data = []
                      · rw [if_pos hemp] at hout
                        exact ih rest hszr _ _ _ _ _ _ _ hout y hy
                      · rw [if_neg hemp] at hout
                        cases title with
                        | none => exact Except.noConfusion hout
                        | some t =>
                            simp only [] at hout
                            cases hrec : parseChildren kind rest (i + 1) strId secId parId
                                (ctr + 1) (some t) with
                            | error e =>
                                rw [hrec] at hout
                                simp only [] at hout
                                exact Except.noConfusion hout
                            | ok more =>
                                rw [hrec] at hout
                                have hout2 : (ctr + 1, mkSectionDict (ctr + 1) parId secId strId
                                    i t (parseList (Node.elem nm attrs cls ch)) "p")
                                    :: more = out := by simpa using hout
                                rw [← hout2] at hy
                                rcases List.mem_cons.mp hy with rfl | hmem
                                · exact ⟨_, _, _, _, _, _, _, _, rfl⟩
                                · exact ih rest hszr _ _ _ _ _ _ _ hrec y hmem
                  | ignored =>
                      rw [htt] at hout
                      simp only [] at hout
                      by_cases hemp :
                          (pyStrip (unidecode (Node.getText (Node.elem nm attrs cls ch)))).data = []
                      · rw [if_pos hemp] at hout
                        exact ih rest hszr _ _ _ _ _ _ _ hout y hy
                      · rw [if_neg hemp] at hout
                        cases title with
                        | none => exact Except.noConfusion hout
                        | some t =>
                            simp only [] at hout
                            exact ih rest hszr _ _ _ _ _ _ _ hout y hy
                  | unknown =>
                      rw [htt] at hout
                      simp only [] at hout
                      by_cases hemp :
                          (pyStrip (unidecode (Node.getText (Node.elem nm attrs cls ch)))).data = []
                      · rw [if_pos hemp] at hout
                        exact ih rest hszr _ _ _ _ _ _ _ hout y hy
                      · rw [if_neg hemp] at hout
                        cases title with
                        | none => exact Except.noConfusion hout
                        | some t =>
                            simp only [] at hout
                            exact Except.noConfusion hout

theorem parseSectionN_shape (kind : ParserKind) (s : Node) (parId ctr : Int)
    (yields : List (Int × List (String × SecVal)))
    (h : parseSectionN kind s parId ctr = .ok yields) :
    ∀ y ∈ yields, ∃ a b c d e f g h', y.2 = mkSectionDict a b c d e f g h' := by
  intro y hy
  cases s with
  | text s0 =>
      simp only [parseSectionN] at h
      exact Except.noConfusion h
  | elem nm attrs cls ch =>
      simp only [parseSectionN] at h
      cases hid : alookup attrs "id" with
      | none =>
          rw [hid] at h
          simp only [] at h
          exact Except.noConfusion h
      | some sId =>
          rw [hid] at h
          simp only [] at h
          exact parseChildren_shape kind (sizeOf ch) ch (le_refl _) _ _ _ _ _ _ _ h y hy

theorem callLoop_shape (kind : ParserKind) :
    ∀ (secs : List Node) (ctr : Int) (out),
      callLoop kind secs ctr = .ok out →
      ∀ sec ∈ out, ∀ d ∈ sec, ∃ a b c d' e f g h', d = mkSectionDict a b c d' e f g h' := by
  intro secs
  induction secs with
  | nil =>
      intro ctr out hout sec hsec d hd
      simp only [callLoop] at hout
      have hout2 : ([] : List (List (List (String × SecVal)))) = out := by simpa using hout
      rw [← hout2] at hsec
      simp at hsec
  | cons s rest ih =>
      intro ctr out hout sec hsec d hd
      simp only [callLoop] at hout
      cases hps : parseSectionN kind s 0 ctr with
      | error e =>
          rw [hps] at hout
          simp only [] at hout
          exact Except.noConfusion hout
      | ok yields =>
          rw [hps] at hout
          simp only [] at hout
          cases hcl : callLoop kind rest (yields.foldl (fun _ y => y.1) ctr) with
          | error e =>
              rw [hcl] at hout
              simp only [] at hout
              exact Except.noConfusion hout
          | ok more =>
              rw [hcl] at hout
              have hout2 : (yields.map (fun y => y.2)) :: more = out := by simpa using hout
              rw [← hout2] at hsec
              rcases List.mem_cons.mp hsec with rfl | hmem
              · obtain ⟨yy, hyy, rfl⟩ := List.mem_map.mp hd
                exact parseSectionN_shape kind s 0 ctr yields hps yy hyy
              · exact ih _ more hcl sec hmem d hd

/-- **C8.**  Tutorial HTML parsing is a pure function of the input
document: for every registered parser subclass, `__call__` is a function
of the parsed document tree alone — the embedding carries no mutable
parser state, so equal documents give equal outputs — and every section
dict of a successful parse carries the fields `id`, `parent_id`,
`section_id`, `section_title`, `tag` and `text` (together with
`section_str_id` and `child_idx`). -/
theorem c8_parser_purity (kind : ParserKind) (doc₁ doc₂ : Node) (h : doc₁ = doc₂) :
    parserCall kind doc₁ = parserCall kind doc₂
    ∧ (∀ out, parserCall kind doc₁ = .ok out →
        ∀ sec ∈ out, ∀ d ∈ sec,
          "id" ∈ akeys d ∧ "parent_id" ∈ akeys d ∧ "section_id" ∈ akeys d ∧
          "section_title" ∈ akeys d ∧ "tag" ∈ akeys d ∧ "text" ∈ akeys d) := by
  constructor
  · rw [h]
  · intro out hout sec hsec d hd
    simp only [parserCall] at hout
    cases hgs : getHeaderAndSections kind doc₁ with
    | error e =>
        rw [hgs] at hout
        simp only [] at hout
        exact Except.noConfusion hout
    | ok sections =>
        rw [hgs] at hout
        simp only [] at hout
        obtain ⟨a, b, c, d', e, f, g, h', hdict⟩ :=
          callLoop_shape kind sections 0 out hout sec hsec d hd
        subst hdict
        simp [mkSectionDict, akeys]

/-- A concrete sympy-style document for the C8 witness: a body `div`
holding one `section` with a title (whose header link is extracted), a
paragraph with collapsible whitespace, and a highlighted code block. -/
def c8doc : Node :=
  .elem "html" [] []
    [.elem "div" [] ["body"]
      [.elem "section" [("id", "intro")] []
        [.text "\n",
         .elem "h1" [] [] [.text "Intro Title", .elem "a" [] ["headerlink"] [.text "#"]],
         .elem "p" [] [] [.text "Hello   world\nagain"],
         .elem "div" [] ["highlight-python"] [.elem "pre" [] [] [.text "  >>> x\n"]]]]]

/-- The first section dict `c8doc` parses to. -/
def c8dict : List (String × SecVal) :=
  [("id", .n 2), ("parent_id", .n 0), ("section_id", .n 1),
   ("section_str_id", .s "intro"), ("child_idx", .n 2),
   ("section_title", .s "Intro Title"), ("text", .s "Hello world again"),
   ("tag", .s "p")]

/-- The per-section output for `c8doc`. -/
def c8sec : List (List (String × SecVal)) :=
  [c8dict,
   [("id", .n 3), ("parent_id", .n 0), ("section_id", .n 1),
    ("section_str_id", .s "intro"), ("child_idx", .n 3),
    ("section_title", .s "Intro Title"), ("text", .s ">>> x\n"),
    ("tag", .s "code")]]

/-- Witness for C8: the sympy parser on `c8doc` evaluates to exactly
`[c8sec]`, and the theorem's field guarantee holds at its first dict. -/
theorem c8_parser_purity_witness :
    parserCall ParserKind.sympy c8doc = .ok [c8sec]
    ∧ ("id" ∈ akeys c8dict ∧ "parent_id" ∈ akeys c8dict ∧ "section_id" ∈ akeys c8dict ∧
        "section_title" ∈ akeys c8dict ∧ "tag" ∈ akeys c8dict ∧ "text" ∈ akeys c8dict) :=
  ⟨rfl,
   (c8_parser_purity ParserKind.sympy c8doc c8doc rfl).2 [c8sec] (by rfl)
     c8sec (by decide) c8dict (by decide)⟩


end SpringResearch
